import Mathlib

/-!
Verification of the knowledge-graph core (`python/knowledge_graph/core.py`):
a shallow embedding of the wrapper's data processing (config merge, link
derivation from parent declarations, timeline auto-calculation, validation,
load orchestration) together with proofs about its invariants.
-/

set_option autoImplicit false

namespace KGCore

/-- Shallow embedding of the Python values the core manipulates: `None`,
booleans, integers, floats (modelled as rationals, the core only ever stores
the literal `0.5` and `0.3` and never computes with them), strings, lists and
string-keyed dicts (as ordered association lists, matching insertion order of
Python dicts; the input contract of the core is a nested mapping with string
keys). -/
inductive Val where
  | none
  | bool (b : Bool)
  | int (n : Int)
  | float (q : Rat)
  | str (s : String)
  | list (xs : List Val)
  | dict (es : List (String × Val))

mutual

/-- Boolean structural equality on embedded values.  Python `==` additionally
identifies `True` with `1` and `1` with `1.0` across the numeric types; the
core only ever compares node ids and config keys of a single type, so the
embedding uses structural equality. -/
def Val.beq : Val → Val → Bool
  | .none, .none => true
  | .bool a, .bool b => a == b
  | .int a, .int b => a == b
  | .float a, .float b => a == b
  | .str a, .str b => a == b
  | .list xs, .list ys => Val.beqList xs ys
  | .dict xs, .dict ys => Val.beqPairs xs ys
  | _, _ => false

/-- Elementwise `Val.beq` on lists. -/
def Val.beqList : List Val → List Val → Bool
  | [], [] => true
  | x :: xs, y :: ys => Val.beq x y && Val.beqList xs ys
  | _, _ => false

/-- Entrywise `Val.beq` on dict entry lists. -/
def Val.beqPairs : List (String × Val) → List (String × Val) → Bool
  | [], [] => true
  | (k, v) :: xs, (l, w) :: ys => k == l && Val.beq v w && Val.beqPairs xs ys
  | _, _ => false

end

theorem Val.beq_iff_aux :
    ∀ (n : Nat) (a b : Val), sizeOf a ≤ n → (Val.beq a b = true ↔ a = b) := by
  intro n
  induction n with
  | zero =>
    intro a b h
    exact absurd h (by cases a <;> simp)
  | succ n ih =>
    intro a b h
    cases a <;> cases b <;> simp [Val.beq]
    case list.list xs ys =>
      have hxs : sizeOf xs ≤ n := by simp at h; omega
      clear h
      induction xs generalizing ys with
      | nil => cases ys <;> simp [Val.beqList]
      | cons x xs ihl =>
        cases ys with
        | nil => simp [Val.beqList]
        | cons y ys =>
          have h1 : sizeOf x ≤ n := by simp at hxs; omega
          have h2 : sizeOf xs ≤ n := by simp at hxs; omega
          simp [Val.beqList, ih x y h1, ihl ys h2]
    case dict.dict xs ys =>
      have hxs : sizeOf xs ≤ n := by simp at h; omega
      clear h
      induction xs generalizing ys with
      | nil => cases ys <;> simp [Val.beqPairs]
      | cons x xs ihl =>
        cases ys with
        | nil => simp [Val.beqPairs]
        | cons y ys =>
          obtain ⟨k, v⟩ := x
          obtain ⟨l, w⟩ := y
          have h1 : sizeOf v ≤ n := by simp at hxs; omega
          have h2 : sizeOf xs ≤ n := by simp at hxs; omega
          simp [Val.beqPairs, ih v w h1, ihl ys h2, and_assoc]

theorem Val.beq_iff (a b : Val) : Val.beq a b = true ↔ a = b :=
  Val.beq_iff_aux (sizeOf a) a b (Nat.le_refl _)

instance : DecidableEq Val := fun a b => decidable_of_iff _ (Val.beq_iff a b)

/-- Python truthiness (`bool(v)`): `None`, `False`, `0`, `0.0`, `""`, `[]` and
`{}` are falsy, everything else is truthy. -/
def Val.truthy : Val → Bool
  | .none => false
  | .bool b => b
  | .int n => n != 0
  | .float q => q != 0
  | .str s => s != ""
  | .list xs => !xs.isEmpty
  | .dict es => !es.isEmpty

/-- The exceptions the embedded core can raise: `ValueError` (with its
message), `TypeError`, `KeyError` and `AttributeError`. -/
inductive Err where
  | valueError (msg : String)
  | typeError
  | keyError (k : String)
  | attributeError
  deriving DecidableEq

/-- First-match lookup in a dict's entry list (Python `d[key]` resolution). -/
def dget : List (String × Val) → String → Option Val
  | [], _ => Option.none
  | (k, v) :: es, key => if k = key then some v else dget es key

/-- Dict assignment `d[key] = v`: replaces the value of the first entry whose
key matches, otherwise appends (Python dicts preserve insertion order). -/
def dset : List (String × Val) → String → Val → List (String × Val)
  | [], key, v => [(key, v)]
  | (k, w) :: es, key, v =>
    if k = key then (k, v) :: es else (k, w) :: dset es key v

/-- Key presence in a dict entry list. -/
def hasKey (es : List (String × Val)) (key : String) : Bool :=
  (dget es key).isSome

/-- Is `n` a leading piece of `h`? -/
def charsLead : List Char → List Char → Bool
  | [], _ => true
  | _ :: _, [] => false
  | a :: as, b :: bs => a == b && charsLead as bs

/-- Does `n` occur contiguously inside `h`? -/
def charsSub (n : List Char) : List Char → Bool
  | [] => n.isEmpty
  | c :: t => charsLead n (c :: t) || charsSub n t

/-- Python `needle in hay` on strings (substring containment). -/
def strHasSub (needle hay : String) : Bool :=
  charsSub needle.data hay.data

/-- Python membership `key in v` for a string `key`: key lookup on dicts,
element equality on lists, substring test on strings, `TypeError` otherwise. -/
def Val.mem (key : String) : Val → Except Err Bool
  | .dict es => .ok (hasKey es key)
  | .list xs => .ok (xs.any (fun x => decide (x = Val.str key)))
  | .str s => .ok (strHasSub key s)
  | _ => .error .typeError

/-- Python subscription `v[key]` with a string key: only dicts support it
(`KeyError` when absent); everything else raises `TypeError`. -/
def Val.item : Val → String → Except Err Val
  | .dict es, key =>
    match dget es key with
    | some v => .ok v
    | Option.none => .error (.keyError key)
  | _, _ => .error .typeError

/-- Python `v.get(key)` (default `None`): only dicts have `.get`. -/
def Val.attrGet : Val → String → Except Err Val
  | .dict es, key => .ok ((dget es key).getD Val.none)
  | _, _ => .error .attributeError

/-- Python `v.get(key, default)`. -/
def Val.attrGetD : Val → String → Val → Except Err Val
  | .dict es, key, d => .ok ((dget es key).getD d)
  | _, _, _ => .error .attributeError

/-- Python item assignment `v[k] = x`.  The embedding's dicts are string-keyed
(the core's input contract is a nested mapping with string keys), so a
non-string key on a dict is rejected, as is any non-dict target. -/
def Val.setItem : Val → Val → Val → Except Err Val
  | .dict es, .str key, x => .ok (.dict (dset es key x))
  | _, _, _ => .error .typeError

/-- Python iteration `for x in v`: a list yields its elements, a dict its
keys, a string its characters; everything else raises `TypeError`. -/
def Val.iter : Val → Except Err (List Val)
  | .list xs => .ok xs
  | .dict es => .ok (es.map (fun e => Val.str e.1))
  | .str s => .ok (s.data.map (fun c => Val.str (String.mk [c])))
  | _ => .error .typeError

/-- Python `d.update(m)`: key-wise overlay of `m` onto `d` (only the
dict-argument form is modelled; `d` must itself be a dict). -/
def Val.update : Val → Val → Except Err Val
  | .dict es, .dict src => .ok (.dict (src.foldl (fun acc e => dset acc e.1 e.2) es))
  | .dict _, _ => .error .typeError
  | _, _ => .error .attributeError

/-- Python hashability: lists and dicts are unhashable. -/
def Val.hashable : Val → Bool
  | .list _ => false
  | .dict _ => false
  | _ => true

/-- Python `s.add(v)` on a set modelled as a duplicate-free list: raises
`TypeError` on unhashable values, otherwise appends unless already present. -/
def setAdd (s : List Val) (v : Val) : Except Err (List Val) :=
  if v.hashable then
    .ok (if s.any (fun x => decide (x = v)) then s else s ++ [v])
  else .error .typeError

/-- Python `v in s` for a set `s`: raises `TypeError` on unhashable values. -/
def setMem (s : List Val) (v : Val) : Except Err Bool :=
  if v.hashable then .ok (s.any (fun x => decide (x = v)))
  else .error .typeError

/-- The numeric value of an embedded Python number, when there is one
(`bool` counts as `0`/`1`, as in Python's numeric tower). -/
def Val.toNum : Val → Option Rat
  | .int n => some (n : Rat)
  | .bool b => some (if b then 1 else 0)
  | .float q => some q
  | _ => Option.none

mutual

/-- Python `a < b`: numeric comparison across the numeric types,
lexicographic on strings and lists, `TypeError` on anything else. -/
def pyLt (a b : Val) : Except Err Bool :=
  match a.toNum, b.toNum with
  | some x, some y => .ok (decide (x < y))
  | _, _ =>
    match a, b with
    | .str s, .str t => .ok (decide (s < t))
    | .list xs, .list ys => pyLtList xs ys
    | _, _ => .error .typeError

/-- Python list comparison: skip equal heads, then compare; a strict prefix
is smaller. -/
def pyLtList : List Val → List Val → Except Err Bool
  | [], [] => .ok false
  | [], _ :: _ => .ok true
  | _ :: _, [] => .ok false
  | x :: xs, y :: ys => if x = y then pyLtList xs ys else pyLt x y

end

/-- The scan of Python `min(it)`: replace the best when `item < best`. -/
def pyMinFold (best : Val) : List Val → Except Err Val
  | [] => .ok best
  | x :: xs => do
    let lt ← pyLt x best
    pyMinFold (if lt then x else best) xs

/-- Python `min` on a non-empty list. -/
def pyMin : List Val → Except Err Val
  | [] => .error (.valueError "min() arg is an empty sequence")
  | x :: xs => pyMinFold x xs

/-- The scan of Python `max(it)`: replace the best when `item > best`. -/
def pyMaxFold (best : Val) : List Val → Except Err Val
  | [] => .ok best
  | x :: xs => do
    let gt ← pyLt best x
    pyMaxFold (if gt then x else best) xs

/-- Python `max` on a non-empty list. -/
def pyMax : List Val → Except Err Val
  | [] => .error (.valueError "max() arg is an empty sequence")
  | x :: xs => pyMaxFold x xs

mutual

/-- Python `repr` of an embedded value (string escaping is not reproduced;
floats render as rationals — the core never formats a float). -/
def pyRepr : Val → String
  | .none => "None"
  | .bool b => if b then "True" else "False"
  | .int n => toString n
  | .float q => toString q
  | .str s => "\x27" ++ s ++ "\x27"
  | .list xs => "[" ++ pyReprList xs ++ "]"
  | .dict es => "\x7b" ++ pyReprPairs es ++ "\x7d"

/-- Comma-separated `repr`s of list elements. -/
def pyReprList : List Val → String
  | [] => ""
  | [x] => pyRepr x
  | x :: y :: xs => pyRepr x ++ ", " ++ pyReprList (y :: xs)

/-- Comma-separated `repr`s of dict entries. -/
def pyReprPairs : List (String × Val) → String
  | [] => ""
  | [(k, v)] => "\x27" ++ k ++ "\x27: " ++ pyRepr v
  | (k, v) :: e :: es => "\x27" ++ k ++ "\x27: " ++ pyRepr v ++ ", " ++ pyReprPairs (e :: es)

end

/-- Python `str(v)` as used by f-string interpolation. -/
def pyStr : Val → String
  | .str s => s
  | v => pyRepr v

/-- The default configuration built by `_merge_default_config`
(`core.py:46-83`), verbatim. -/
def defaultConfig : List (String × Val) :=
  [("width", .int 900),
   ("height", .int 600),
   ("hero_mode", .bool false),
   ("title_overlay", .none),
   ("theme", .dict
     [("primaryColor", .str "#2780e3"),
      ("secondaryColor", .str "#3fb618"),
      ("accentColor", .str "#ffdd3c"),
      ("dangerColor", .str "#ff0039"),
      ("mutedColor", .str "#868e96"),
      ("backgroundColor", .str "#ffffff"),
      ("surfaceColor", .str "#f8f9fa"),
      ("textPrimary", .str "#212529"),
      ("textSecondary", .str "#495057"),
      ("fontFamily", .str "system-ui, -apple-system, \x27Segoe UI\x27, Roboto, sans-serif"),
      ("fontSizeBase", .int 14)]),
   ("nodeColors", .dict []),
   ("layers", .list []),
   ("timeline", .dict
     [("enabled", .bool true), ("start", .none), ("end", .none)]),
   ("features", .dict
     [("showMiniMap", .bool true),
      ("showTimeline", .bool true),
      ("showLegend", .bool true),
      ("enableHover", .bool true),
      ("enableDrag", .bool true)]),
   ("simulation", .dict
     [("linkDistance", .int 120),
      ("linkStrength", .float (3 / 10)),
      ("chargeStrength", .int (-400))])]

mutual

/-- `_deep_merge` (`core.py:87-95`): copy the target, then for each source
entry assign `result[key]` to the merged-or-overwriting value. -/
def deepMerge : List (String × Val) → List (String × Val) → List (String × Val)
  | target, [] => target
  | target, (key, v) :: rest =>
    deepMerge (dset target key (mergeUnder (dget target key) v)) rest

/-- The value `_deep_merge` assigns for one source entry: a recursive merge
when the key is present in the target and both sides hold dicts, otherwise
the source value itself. -/
def mergeUnder : Option Val → Val → Val
  | some (.dict d), .dict u => .dict (deepMerge d u)
  | _, v => v

end

/-- `_merge_default_config` (`core.py:44-85`). -/
def mergeDefaultConfig (userConfig : List (String × Val)) : List (String × Val) :=
  deepMerge defaultConfig userConfig

/-- The state of a `KnowledgeGraphPython` instance: the merged configuration,
the `data` dict's `nodes` and `links` entries, and the `is_loaded` flag.  The
uuid-derived `graph_id` and the filesystem path `js_lib_path` are external
concerns and are not part of the model. -/
structure KG where
  config : List (String × Val)
  dataNodes : Val
  dataLinks : Val
  is_loaded : Bool
  deriving DecidableEq

/-- `__init__` (`core.py:20-42`): merge the user configuration over the
defaults, start with empty data and `is_loaded = False`. -/
def initKG (userConfig : List (String × Val)) : KG :=
  { config := mergeDefaultConfig userConfig
    dataNodes := .list []
    dataLinks := .list []
    is_loaded := false }

/-- `self.config[key]`. -/
def cfgItem (kg : KG) (key : String) : Except Err Val :=
  Val.item (.dict kg.config) key

/-- The `isinstance(x, list)` branching of `core.py:189-192` / `core.py:199-200`:
a list is used as-is, anything else is wrapped into a one-element list. -/
def wrapSeq : Val → List Val
  | .list xs => xs
  | v => [v]

/-- The effective parent list of a node (`core.py:184-200`, repeated verbatim
at `core.py:264-279`): `parent_node` when present and truthy (wrapped into a
one-element list unless it is a list), else `parent_nodes` the same way, else
empty.  The source's extra `is not None` conjunct after the truthiness test
is kept as written. -/
def effParents (node : Val) : Except Err (List Val) := do
  let pn ← node.attrGet "parent_node"
  if pn.truthy && !(decide (pn = Val.none)) then
    pure (wrapSeq pn)
  else
    let pns ← node.attrGet "parent_nodes"
    if pns.truthy && !(decide (pns = Val.none)) then
      pure (wrapSeq pns)
    else
      pure []

/-- `any(n['id'] == parent_id for n in self.data['nodes'])` (`core.py:205`),
with Python's short-circuit scan. -/
def anyIdMatches (pid : Val) : List Val → Except Err Bool
  | [] => .ok false
  | n :: ns => do
    let idv ← n.item "id"
    if idv = pid then .ok true else anyIdMatches pid ns

/-- The link dict built at `core.py:207-212`. -/
def mkLink (pid target : Val) : Val :=
  .dict [("source", pid),
         ("target", target),
         ("strength", .float (1 / 2)),
         ("id", .str (pyStr pid ++ "-" ++ pyStr target))]

/-- The `for parent_id in parents` loop of `core.py:203-213`: emit a link for
each parent id that matches some node's id, silently skip the others. -/
def linksForParents (allNodes : List Val) (node : Val) : List Val → Except Err (List Val)
  | [] => .ok []
  | pid :: rest => do
    let ex ← anyIdMatches pid allNodes
    if ex then do
      let tgt ← node.item "id"
      let more ← linksForParents allNodes node rest
      .ok (mkLink pid tgt :: more)
    else
      linksForParents allNodes node rest

/-- Links contributed by one node: its effective parents, filtered and turned
into link dicts. -/
def linksFromNode (allNodes : List Val) (node : Val) : Except Err (List Val) := do
  let ps ← effParents node
  linksForParents allNodes node ps

/-- The outer node loop of `_generate_links_from_parents`, appending each
node's links in order. -/
def genLinksLoop (allNodes : List Val) (acc : List Val) : List Val → Except Err (List Val)
  | [] => .ok acc
  | n :: ns => do
    let ls ← linksFromNode allNodes n
    genLinksLoop allNodes (acc ++ ls) ns

/-- `_generate_links_from_parents` (`core.py:180-213`).  Links appended
before an error are not tracked on the error path (no claim observes the
link list of a failed load; `is_loaded` is untouched either way). -/
def generateLinksFromParents (kg : KG) : Except Err KG := do
  let nodes ← kg.dataNodes.iter
  let newLinks ← genLinksLoop nodes [] nodes
  match kg.dataLinks with
  | .list ls => .ok { kg with dataLinks := .list (ls ++ newLinks) }
  | _ => .error .attributeError

/-- The year-collecting loop of `_auto_calculate_timeline` (`core.py:217-225`):
pool each `timespan.start` / `timespan.end` that is present *and truthy*. -/
def collectYears (acc : List Val) : List Val → Except Err (List Val)
  | [] => .ok acc
  | n :: ns => do
    let hasTs ← Val.mem "timespan" n
    if hasTs then do
      let ts ← n.item "timespan"
      let hs ← Val.mem "start" ts
      let acc1 ← if hs then do
          let v ← ts.item "start"
          pure (if v.truthy then acc ++ [v] else acc)
        else pure acc
      let he ← Val.mem "end" ts
      let acc2 ← if he then do
          let v ← ts.item "end"
          pure (if v.truthy then acc1 ++ [v] else acc1)
        else pure acc1
      collectYears acc2 ns
    else
      collectYears acc ns

/-- The second `if` of `_auto_calculate_timeline` (`core.py:230-231`): fill a
`None` end with `max(years)`. -/
def autoCalcEnd (years : List Val) (kg1 : KG) : Except Err KG := do
  let tl3 ← cfgItem kg1 "timeline"
  let e ← tl3.item "end"
  if e = Val.none then do
    let m ← pyMax years
    let tl4 ← tl3.setItem (.str "end") m
    pure { kg1 with config := dset kg1.config "timeline" tl4 }
  else pure kg1

/-- `_auto_calculate_timeline` (`core.py:215-231`): when the pool is
non-empty, a `None` start becomes `min(pool)` and a `None` end `max(pool)`
(two sequential, independent `if`s, as in the source). -/
def autoCalculateTimeline (kg : KG) : Except Err KG := do
  let nodes ← kg.dataNodes.iter
  let years ← collectYears [] nodes
  if years.isEmpty then
    .ok kg
  else do
    let tl ← cfgItem kg "timeline"
    let s ← tl.item "start"
    if s = Val.none then do
      let m ← pyMin years
      let tl2 ← tl.setItem (.str "start") m
      autoCalcEnd years { kg with config := dset kg.config "timeline" tl2 }
    else autoCalcEnd years kg

/-- The required-field pass of `_validate_data` (`core.py:242-248`):
accumulate the node-id set, failing on a missing `id` (named by index) or a
missing `label` (named by id). -/
def checkNodesLoop (i : Nat) (ids : List Val) : List Val → Except Err (List Val)
  | [] => .ok ids
  | n :: ns => do
    let hasId ← Val.mem "id" n
    if !hasId then
      .error (.valueError ("Node " ++ toString i ++ " is missing required \x27id\x27 field"))
    else do
      let hasLabel ← Val.mem "label" n
      if !hasLabel then do
        let idv ← n.item "id"
        .error (.valueError ("Node " ++ pyStr idv ++ " is missing required \x27label\x27 field"))
      else do
        let idv ← n.item "id"
        let ids2 ← setAdd ids idv
        checkNodesLoop (i + 1) ids2 ns

/-- The link pass of `_validate_data` (`core.py:251-260`). -/
def checkLinksLoop (ids : List Val) (i : Nat) : List Val → Except Err Unit
  | [] => .ok ()
  | l :: ls => do
    let hasS ← Val.mem "source" l
    if !hasS then
      .error (.valueError ("Link " ++ toString i ++ " is missing required \x27source\x27 field"))
    else do
      let hasT ← Val.mem "target" l
      if !hasT then
        .error (.valueError ("Link " ++ toString i ++ " is missing required \x27target\x27 field"))
      else do
        let sv ← l.item "source"
        let sIn ← setMem ids sv
        if !sIn then
          .error (.valueError ("Link " ++ toString i ++ " references unknown source node: " ++ pyStr sv))
        else do
          let tv ← l.item "target"
          let tIn ← setMem ids tv
          if !tIn then
            .error (.valueError ("Link " ++ toString i ++ " references unknown target node: " ++ pyStr tv))
          else
            checkLinksLoop ids (i + 1) ls

/-- The `for parent_id in parents` check of `core.py:282-284`. -/
def checkParentList (ids : List Val) (i : Nat) (node : Val) : List Val → Except Err Unit
  | [] => .ok ()
  | pid :: rest => do
    let isIn ← setMem ids pid
    if !isIn then do
      let idv ← node.item "id"
      .error (.valueError ("Node " ++ toString i ++ " (\x27" ++ pyStr idv
        ++ "\x27) references unknown parent: " ++ pyStr pid))
    else
      checkParentList ids i node rest

/-- The parent-reference pass of `_validate_data` (`core.py:263-284`):
re-derive each node's effective parent list and require every id in it to be
in the node-id set. -/
def checkParentsLoop (ids : List Val) (i : Nat) : List Val → Except Err Unit
  | [] => .ok ()
  | n :: ns => do
    let ps ← effParents n
    let _ ← checkParentList ids i n ps
    checkParentsLoop ids (i + 1) ns

/-- `_validate_data` (`core.py:233-284`). -/
def validateData (nodesV linksV : Val) : Except Err Unit :=
  match nodesV with
  | .list nodes =>
    match linksV with
    | .list links => do
      let ids ← checkNodesLoop 0 [] nodes
      let _ ← checkLinksLoop ids 0 links
      checkParentsLoop ids 0 nodes
    | _ => .error (.valueError "\x27links\x27 must be a list")
  | _ => .error (.valueError "\x27nodes\x27 must be a list")

/-- Tag an exception with the instance state at the point it was raised
(`self` keeps its partially mutated fields when `_process_raw_data`
propagates an error). -/
def withKG {α : Type} (kg : KG) : Except Err α → Except (KG × Err) α
  | .ok a => .ok a
  | .error e => .error (kg, e)

/-- `core.py:148-151`: merge a `metadata.timeline` section key-wise into the
configuration's timeline entry. -/
def stepMetadata (kg : KG) (raw : Val) : Except (KG × Err) KG := do
  let hasMeta ← withKG kg (Val.mem "metadata" raw)
  if hasMeta then do
    let metadata ← withKG kg (raw.item "metadata")
    let hasTl ← withKG kg (Val.mem "timeline" metadata)
    if hasTl then do
      let tlNew ← withKG kg (metadata.item "timeline")
      let tlCur ← withKG kg (cfgItem kg "timeline")
      let merged ← withKG kg (tlCur.update tlNew)
      pure { kg with config := dset kg.config "timeline" merged }
    else pure kg
  else pure kg

/-- The `for layer in self.config['layers']` loop of `core.py:158-160`,
deriving `nodeColors` (evaluation order of `core.py:160` preserved: right
hand side first, then the assignment target's subscripts). -/
def layersColorLoop (kg : KG) : List Val → Except (KG × Err) KG
  | [] => .ok kg
  | layer :: rest => do
    let hasColor ← withKG kg (Val.mem "color" layer)
    if hasColor then do
      let col ← withKG kg (layer.item "color")
      let nc ← withKG kg (cfgItem kg "nodeColors")
      let lid ← withKG kg (layer.item "id")
      let nc2 ← withKG kg (nc.setItem lid col)
      layersColorLoop { kg with config := dset kg.config "nodeColors" nc2 } rest
    else
      layersColorLoop kg rest

/-- `core.py:154-160`: install a raw `layers` section verbatim and derive
node colors from it. -/
def stepLayers (kg : KG) (raw : Val) : Except (KG × Err) KG := do
  let hasLayers ← withKG kg (Val.mem "layers" raw)
  if hasLayers then do
    let lv ← withKG kg (raw.item "layers")
    let kg2 := { kg with config := dset kg.config "layers" lv }
    let items ← withKG kg2 (cfgItem kg2 "layers" >>= Val.iter)
    layersColorLoop kg2 items
  else pure kg

/-- `core.py:163-166`: install `raw.nodes` (default `[]`) and reset links. -/
def stepData (kg : KG) (raw : Val) : Except (KG × Err) KG := do
  let nodes ← withKG kg (raw.attrGetD "nodes" (Val.list []))
  pure { kg with dataNodes := nodes, dataLinks := Val.list [] }

/-- `core.py:169`. -/
def stepGenLinks (kg : KG) : Except (KG × Err) KG :=
  withKG kg (generateLinksFromParents kg)

/-- `core.py:172-173`: run auto-calculation when `timeline.start` or
`timeline.end` is `None` (with Python's short-circuit `or`). -/
def stepTimeline (kg : KG) : Except (KG × Err) KG := do
  let tl ← withKG kg (cfgItem kg "timeline")
  let s ← withKG kg (tl.item "start")
  if s = Val.none then
    withKG kg (autoCalculateTimeline kg)
  else do
    let e ← withKG kg (tl.item "end")
    if e = Val.none then withKG kg (autoCalculateTimeline kg)
    else pure kg

/-- `core.py:176`. -/
def stepValidate (kg : KG) : Except (KG × Err) KG := do
  let _ ← withKG kg (validateData kg.dataNodes kg.dataLinks)
  pure kg

/-- `_process_raw_data` (`core.py:145-178`), the body of `load_dict`:
metadata → layers → data extraction → link generation → timeline →
validation → `is_loaded = True`.  An error leaves the instance (with its
fields as mutated so far) in the error payload; `is_loaded` is only ever
assigned at the very end. -/
def processRawData (kg : KG) (raw : Val) : Except (KG × Err) KG := do
  let kg1 ← stepMetadata kg raw
  let kg2 ← stepLayers kg1 raw
  let kg3 ← stepData kg2 raw
  let kg4 ← stepGenLinks kg3
  let kg5 ← stepTimeline kg4
  let kg6 ← stepValidate kg5
  pure { kg6 with is_loaded := true }

/-- `generate_html` (`core.py:286-314`).  Reading the JavaScript library from
disk and the HTML templating are external concerns, injected as `readJsLib`
and `template`; the guard of `core.py:298-299` is the modelled behaviour. -/
def generateHtml (template : KG → Bool → String → String)
    (readJsLib : Except Err String) (kg : KG) (standalone : Bool) :
    Except Err String :=
  if !kg.is_loaded then
    .error (.valueError "No data loaded. Use load_yaml() or load_dict() first.")
  else do
    let js ← readJsLib
    .ok (template kg standalone js)

/-! ### Basic lemmas about the embedded operations -/

@[simp]
theorem withKG_ok {α : Type} (kg : KG) (a : α) :
    withKG kg (.ok a) = (.ok a : Except (KG × Err) α) := rfl

@[simp]
theorem withKG_error {α : Type} (kg : KG) (e : Err) :
    withKG kg (.error e) = (.error (kg, e) : Except (KG × Err) α) := rfl

@[simp]
theorem except_bind_ok {ε α β : Type} (a : α) (f : α → Except ε β) :
    (Except.ok a >>= f) = f a := rfl

@[simp]
theorem except_bind_error {ε α β : Type} (e : ε) (f : α → Except ε β) :
    (Except.error e >>= f : Except ε β) = Except.error e := rfl

@[simp]
theorem except_pure {ε α : Type} (a : α) :
    (pure a : Except ε α) = Except.ok a := rfl

@[simp]
theorem truthy_val_none : Val.none.truthy = false := rfl

theorem dget_dset (es : List (String × Val)) (k : String) (v : Val) (key : String) :
    dget (dset es k v) key = if key = k then some v else dget es key := by
  induction es with
  | nil =>
    simp only [dset, dget]
    by_cases h : key = k
    · subst h; simp
    · rw [if_neg (fun h2 : k = key => h h2.symm), if_neg h]
  | cons e es ih =>
    obtain ⟨k1, w⟩ := e
    by_cases h1 : k1 = k
    · subst h1
      simp only [dset, if_pos rfl, dget]
      by_cases h : key = k1
      · subst h; simp
      · rw [if_neg (fun h2 : k1 = key => h h2.symm), if_neg h,
          if_neg (fun h2 : k1 = key => h h2.symm)]
    · simp only [dset, if_neg h1, dget, ih]
      by_cases h : k1 = key
      · have hkk : ¬key = k := fun h2 => h1 (h.trans h2)
        rw [if_pos h, if_neg hkk, if_pos h]
      · rw [if_neg h, if_neg h]

theorem dset_dset_same (es : List (String × Val)) (k : String) (v w : Val) :
    dset (dset es k v) k w = dset es k w := by
  induction es with
  | nil => simp [dset]
  | cons e es ih =>
    obtain ⟨k1, x⟩ := e
    by_cases h : k1 = k <;> simp [dset, h, ih]

theorem dget_eq_none_of_not_mem (es : List (String × Val)) (key : String)
    (h : key ∉ es.map Prod.fst) : dget es key = Option.none := by
  induction es with
  | nil => rfl
  | cons e es ih =>
    obtain ⟨k1, w⟩ := e
    rw [List.map_cons, List.mem_cons] at h
    push_neg at h
    simp only [dget]
    rw [if_neg (fun h2 => h.1 h2.symm)]
    exact ih h.2

theorem hasKey_dset (es : List (String × Val)) (k : String) (v : Val) (key : String) :
    hasKey (dset es k v) key = (decide (key = k) || hasKey es key) := by
  by_cases h : key = k <;> simp [hasKey, dget_dset, h]

theorem deepMerge_nil (t : List (String × Val)) : deepMerge t [] = t := by
  rw [deepMerge]

theorem deepMerge_cons (t : List (String × Val)) (k : String) (v : Val)
    (rest : List (String × Val)) :
    deepMerge t ((k, v) :: rest) =
      deepMerge (dset t k (mergeUnder (dget t k) v)) rest := by
  rw [deepMerge]

/-- When the target side does not hold a dict, `mergeUnder` is the source
value. -/
theorem mergeUnder_of_target_not_dict (o : Option Val) (v : Val)
    (h : ∀ d, o ≠ some (Val.dict d)) : mergeUnder o v = v := by
  rw [mergeUnder.eq_def]
  rcases o with _ | w
  · cases v <;> rfl
  · cases w <;> cases v <;> first | rfl | (exact absurd rfl (h _))

/-- When the source value is not a dict, `mergeUnder` is the source value. -/
theorem mergeUnder_of_source_not_dict (o : Option Val) (v : Val)
    (h : ∀ u, v ≠ Val.dict u) : mergeUnder o v = v := by
  rw [mergeUnder.eq_def]
  rcases o with _ | w
  · cases v <;> rfl
  · cases w <;> cases v <;> first | rfl | (exact absurd rfl (h _))

theorem mergeUnder_dicts (d u : List (String × Val)) :
    mergeUnder (some (.dict d)) (.dict u) = .dict (deepMerge d u) := by
  rw [mergeUnder]

/-- One target key of a deep merge: an absent source key leaves the target
value, and a present one is assigned `mergeUnder`.  Requires the source's
keys to be duplicate-free (always true of an entry list denoting a Python
dict). -/
theorem dget_deepMerge (s : List (String × Val)) (t : List (String × Val)) (key : String)
    (hnd : (s.map Prod.fst).Nodup) :
    dget (deepMerge t s) key =
      match dget s key with
      | Option.none => dget t key
      | some v => some (mergeUnder (dget t key) v) := by
  induction s generalizing t with
  | nil => rw [deepMerge_nil]; simp [dget]
  | cons e rest ih =>
    obtain ⟨k, v⟩ := e
    rw [List.map_cons, List.nodup_cons] at hnd
    rw [deepMerge_cons, ih _ hnd.2]
    by_cases hk : key = k
    · subst hk
      have hrest := dget_eq_none_of_not_mem rest key hnd.1
      simp [dget_dset, dget, hrest]
    · simp only [dget_dset, if_neg hk, dget,
        if_neg (fun h2 : k = key => hk h2.symm)]

/-- A key present in the merge target stays present in the merge result (no
duplicate-freeness needed). -/
theorem hasKey_deepMerge_of_target (s t : List (String × Val)) (key : String)
    (h : hasKey t key = true) : hasKey (deepMerge t s) key = true := by
  induction s generalizing t with
  | nil => rw [deepMerge_nil]; exact h
  | cons e rest ih =>
    obtain ⟨k, v⟩ := e
    rw [deepMerge_cons]
    apply ih
    rw [hasKey_dset]
    simp [h]

/-! ### C3: shape of the merged configuration -/

/-- Is a key present in the sub-mapping stored at a top-level key? -/
def cfgHasNestedKey (cfg : List (String × Val)) (k1 k2 : String) : Bool :=
  match dget cfg k1 with
  | some (.dict es) => hasKey es k2
  | _ => false

/-- C3 (counterexample): for the user configuration `{"theme": 0}`, the merge
replaces the entire default `theme` sub-mapping by the scalar `0`, so the
nested default key `primaryColor` (present in the default shape) is absent
from the merged result — the claim that every key of the default shape,
including keys nested inside `theme`, survives every merge is false. -/
theorem mergeDefaultConfig_drops_nested_key :
    cfgHasNestedKey defaultConfig "theme" "primaryColor" = true
    ∧ dget (mergeDefaultConfig [("theme", Val.int 0)]) "theme" = some (Val.int 0)
    ∧ cfgHasNestedKey (mergeDefaultConfig [("theme", Val.int 0)]) "theme" "primaryColor" = false :=
  ⟨rfl, rfl, rfl⟩

/-- C3 (amended): for every user configuration mapping (duplicate-free keys),
(1) every top-level key of the default shape is present in the merged result;
(2) when the default value at a key is a sub-mapping and the user value is
also a mapping, they merge key-wise and every nested default key survives;
(3) a user value that is not a mapping replaces the default wholesale;
(4) so does any user value whose corresponding default is not a mapping;
(5) keys the user does not supply keep their default values.  (Nested default
keys are *not* preserved when the user replaces the sub-mapping by a
non-mapping value.) -/
theorem mergeDefaultConfig_shape (user : List (String × Val))
    (hnd : (user.map Prod.fst).Nodup) :
    (∀ key, hasKey defaultConfig key = true → hasKey (mergeDefaultConfig user) key = true)
    ∧ (∀ key d u, dget defaultConfig key = some (.dict d) → dget user key = some (.dict u) →
        dget (mergeDefaultConfig user) key = some (.dict (deepMerge d u))
        ∧ (∀ k2, hasKey d k2 = true → hasKey (deepMerge d u) k2 = true))
    ∧ (∀ key v, dget user key = some v → (∀ u, v ≠ Val.dict u) →
        dget (mergeDefaultConfig user) key = some v)
    ∧ (∀ key v, dget user key = some v → (∀ d, dget defaultConfig key ≠ some (Val.dict d)) →
        dget (mergeDefaultConfig user) key = some v)
    ∧ (∀ key, dget user key = Option.none →
        dget (mergeDefaultConfig user) key = dget defaultConfig key) := by
  refine ⟨?_, ?_, ?_, ?_, ?_⟩
  · intro key h
    exact hasKey_deepMerge_of_target user defaultConfig key h
  · intro key d u hd hu
    constructor
    · rw [mergeDefaultConfig, dget_deepMerge user defaultConfig key hnd, hu, hd]
      simp only [mergeUnder_dicts]
    · intro k2 h2
      exact hasKey_deepMerge_of_target u d k2 h2
  · intro key v hu hv
    rw [mergeDefaultConfig, dget_deepMerge user defaultConfig key hnd, hu]
    simp only [mergeUnder_of_source_not_dict (dget defaultConfig key) v hv]
  · intro key v hu hd
    rw [mergeDefaultConfig, dget_deepMerge user defaultConfig key hnd, hu]
    simp only [mergeUnder_of_target_not_dict (dget defaultConfig key) v hd]
  · intro key hu
    rw [mergeDefaultConfig, dget_deepMerge user defaultConfig key hnd, hu]

/-- A concrete user configuration exercising `mergeDefaultConfig_shape`. -/
def userCfgW : List (String × Val) :=
  [("theme", .dict [("primaryColor", .str "#111111")]),
   ("layers", .list [.str "x"])]

theorem mergeDefaultConfig_shape_witness :
    hasKey (mergeDefaultConfig userCfgW) "width" = true
    ∧ dget (mergeDefaultConfig userCfgW) "layers" = some (.list [.str "x"])
    ∧ dget (mergeDefaultConfig userCfgW) "height" = dget defaultConfig "height" :=
  ⟨(mergeDefaultConfig_shape userCfgW (by decide)).1 "width" rfl,
   (mergeDefaultConfig_shape userCfgW (by decide)).2.2.1 "layers" (.list [.str "x"]) rfl
     (fun u h => Val.noConfusion h),
   (mergeDefaultConfig_shape userCfgW (by decide)).2.2.2.2 "height" rfl⟩

/-! ### C6: the effective parent list -/

/-- The claim's description of the effective parent list: `parent_node` when
present and not falsy (wrapped), which takes precedence over `parent_nodes`;
else `parent_nodes` when present and not falsy (wrapped); else empty. -/
def effParentsSpec (es : List (String × Val)) : List Val :=
  match dget es "parent_node" with
  | some v =>
    if v.truthy then wrapSeq v
    else
      match dget es "parent_nodes" with
      | some w => if w.truthy then wrapSeq w else []
      | Option.none => []
  | Option.none =>
    match dget es "parent_nodes" with
    | some w => if w.truthy then wrapSeq w else []
    | Option.none => []

theorem truthy_ne_none (v : Val) (h : v.truthy = true) : v ≠ Val.none := by
  intro h2
  subst h2
  simp [Val.truthy] at h

/-- C6: on any node record, the source's effective-parent computation agrees
with the claim's description: a present, non-falsy `parent_node` is used
(wrapped into a one-element sequence unless it is a sequence) and takes
precedence over `parent_nodes`; otherwise a present, non-falsy `parent_nodes`
is used the same way; otherwise the list is empty. -/
theorem effParents_truthy_cond (v : Val) :
    (v.truthy && !(decide (v = Val.none))) = v.truthy := by
  cases v <;> simp [Val.truthy]

theorem effParents_eq_spec (es : List (String × Val)) :
    effParents (.dict es) = .ok (effParentsSpec es) := by
  cases hpn : dget es "parent_node" with
  | none =>
    cases hpns : dget es "parent_nodes" with
    | none =>
      simp [effParents, Val.attrGet, hpn, hpns, effParentsSpec]
    | some w =>
      simp only [effParents, Val.attrGet, hpn, hpns, effParentsSpec, except_bind_ok,
        except_pure, Option.getD_some, Option.getD_none, effParents_truthy_cond,
        truthy_val_none, Bool.false_eq_true, if_false]
      split <;> rfl
  | some v =>
    simp only [effParents, Val.attrGet, hpn, effParentsSpec, except_bind_ok,
      except_pure, Option.getD_some, effParents_truthy_cond]
    cases htv : v.truthy with
    | true => simp
    | false =>
      simp only [Bool.false_eq_true, if_false]
      cases hpns : dget es "parent_nodes" with
      | none => simp [hpns]
      | some w =>
        simp only [hpns, Option.getD_some, effParents_truthy_cond]
        split <;> rfl

/-! ### C2: the `is_loaded` flag across the load pipeline -/

theorem ebind_ok_iff {ε α β : Type} (x : Except ε α) (f : α → Except ε β) (b : β) :
    (x >>= f) = .ok b ↔ ∃ a, x = .ok a ∧ f a = .ok b := by
  cases x <;> simp

/-- An outcome predicate for pipeline steps: the success value satisfies
`val`, and the state carried by any error has its `is_loaded` flag equal to
`b` (the flag of the state the step started from). -/
def MixPred (b : Bool) {α : Type} (val : α → Prop) : Except (KG × Err) α → Prop
  | .ok a => val a
  | .error (kg2, _) => kg2.is_loaded = b

theorem mix_bind {α β : Type} (b : Bool) (va : α → Prop) (vb : β → Prop)
    (x : Except (KG × Err) α) (f : α → Except (KG × Err) β)
    (hx : MixPred b va x) (hf : ∀ a, va a → MixPred b vb (f a)) :
    MixPred b vb (x >>= f) := by
  cases x with
  | ok a => exact hf a hx
  | error p => obtain ⟨kg2, e⟩ := p; exact hx

theorem mix_pure {α : Type} (b : Bool) (val : α → Prop) (a : α) (h : val a) :
    MixPred b val (pure a : Except (KG × Err) α) := h

theorem mix_withKG_prop {α : Type} (b : Bool) (kg : KG) (r : Except Err α)
    (val : α → Prop) (h : kg.is_loaded = b) (hval : ∀ a, r = .ok a → val a) :
    MixPred b val (withKG kg r) := by
  cases r with
  | ok a => exact hval a rfl
  | error e => exact h

theorem mix_withKG {α : Type} (b : Bool) (kg : KG) (r : Except Err α)
    (h : kg.is_loaded = b) : MixPred b (fun _ => True) (withKG kg r) :=
  mix_withKG_prop b kg r _ h (fun _ _ => trivial)

theorem stepMetadata_mix (b : Bool) (kg : KG) (raw : Val) (h : kg.is_loaded = b) :
    MixPred b (fun kg2 : KG => kg2.is_loaded = b) (stepMetadata kg raw) := by
  unfold stepMetadata
  refine mix_bind b _ _ _ _ (mix_withKG b kg _ h) ?_
  intro hasMeta _
  split
  · refine mix_bind b _ _ _ _ (mix_withKG b kg _ h) ?_
    intro md _
    refine mix_bind b _ _ _ _ (mix_withKG b kg _ h) ?_
    intro hasTl _
    split
    · refine mix_bind b _ _ _ _ (mix_withKG b kg _ h) ?_
      intro tlNew _
      refine mix_bind b _ _ _ _ (mix_withKG b kg _ h) ?_
      intro tlCur _
      refine mix_bind b _ _ _ _ (mix_withKG b kg _ h) ?_
      intro merged _
      exact mix_pure b _ _ h
    · exact mix_pure b _ _ h
  · exact mix_pure b _ _ h

theorem layersColorLoop_mix (b : Bool) :
    ∀ (items : List Val) (kg : KG), kg.is_loaded = b →
      MixPred b (fun kg2 : KG => kg2.is_loaded = b) (layersColorLoop kg items) := by
  intro items
  induction items with
  | nil =>
    intro kg h
    exact h
  | cons layer rest ih =>
    intro kg h
    unfold layersColorLoop
    refine mix_bind b _ _ _ _ (mix_withKG b kg _ h) ?_
    intro hasColor _
    split
    · refine mix_bind b _ _ _ _ (mix_withKG b kg _ h) ?_
      intro col _
      refine mix_bind b _ _ _ _ (mix_withKG b kg _ h) ?_
      intro nc _
      refine mix_bind b _ _ _ _ (mix_withKG b kg _ h) ?_
      intro lid _
      refine mix_bind b _ _ _ _ (mix_withKG b kg _ h) ?_
      intro nc2 _
      exact ih _ h
    · exact ih kg h

theorem stepLayers_mix (b : Bool) (kg : KG) (raw : Val) (h : kg.is_loaded = b) :
    MixPred b (fun kg2 : KG => kg2.is_loaded = b) (stepLayers kg raw) := by
  unfold stepLayers
  refine mix_bind b _ _ _ _ (mix_withKG b kg _ h) ?_
  intro hasLayers _
  split
  · refine mix_bind b _ _ _ _ (mix_withKG b kg _ h) ?_
    intro lv _
    refine mix_bind b _ _ _ _ (mix_withKG b _ _ h) ?_
    intro items _
    exact layersColorLoop_mix b items _ h
  · exact mix_pure b _ _ h

theorem stepData_mix (b : Bool) (kg : KG) (raw : Val) (h : kg.is_loaded = b) :
    MixPred b (fun kg2 : KG => kg2.is_loaded = b) (stepData kg raw) := by
  unfold stepData
  refine mix_bind b _ _ _ _ (mix_withKG b kg _ h) ?_
  intro nodes _
  exact mix_pure b _ _ h

theorem generateLinksFromParents_loaded (kg kg2 : KG)
    (h : generateLinksFromParents kg = .ok kg2) : kg2.is_loaded = kg.is_loaded := by
  unfold generateLinksFromParents at h
  rw [ebind_ok_iff] at h
  obtain ⟨nodes, hn, h⟩ := h
  rw [ebind_ok_iff] at h
  obtain ⟨newLinks, hl, h⟩ := h
  split at h
  · simp at h
    subst h
    rfl
  · simp at h

theorem stepGenLinks_mix (b : Bool) (kg : KG) (h : kg.is_loaded = b) :
    MixPred b (fun kg2 : KG => kg2.is_loaded = b) (stepGenLinks kg) := by
  unfold stepGenLinks
  refine mix_withKG_prop b kg _ _ h ?_
  intro kg2 h2
  rw [generateLinksFromParents_loaded kg kg2 h2]
  exact h

theorem autoCalcEnd_loaded (years : List Val) (kg1 kg2 : KG)
    (h : autoCalcEnd years kg1 = .ok kg2) : kg2.is_loaded = kg1.is_loaded := by
  unfold autoCalcEnd at h
  rw [ebind_ok_iff] at h
  obtain ⟨tl3, htl3, h⟩ := h
  rw [ebind_ok_iff] at h
  obtain ⟨e, he, h⟩ := h
  split at h
  · rw [ebind_ok_iff] at h
    obtain ⟨m, hm, h⟩ := h
    rw [ebind_ok_iff] at h
    obtain ⟨tl4, htl4, h⟩ := h
    simp at h
    subst h
    rfl
  · simp at h
    subst h
    rfl

theorem autoCalculateTimeline_loaded (kg kg2 : KG)
    (h : autoCalculateTimeline kg = .ok kg2) : kg2.is_loaded = kg.is_loaded := by
  unfold autoCalculateTimeline at h
  rw [ebind_ok_iff] at h
  obtain ⟨nodes, hn, h⟩ := h
  rw [ebind_ok_iff] at h
  obtain ⟨years, hy, h⟩ := h
  split at h
  · simp at h
    subst h
    rfl
  · rw [ebind_ok_iff] at h
    obtain ⟨tl, htl, h⟩ := h
    rw [ebind_ok_iff] at h
    obtain ⟨s, hs, h⟩ := h
    split at h
    · rw [ebind_ok_iff] at h
      obtain ⟨m, hm, h⟩ := h
      rw [ebind_ok_iff] at h
      obtain ⟨tl2, htl2, h⟩ := h
      have h2 := autoCalcEnd_loaded years _ kg2 h
      exact h2
    · have h2 := autoCalcEnd_loaded years _ kg2 h
      exact h2

theorem stepTimeline_mix (b : Bool) (kg : KG) (h : kg.is_loaded = b) :
    MixPred b (fun kg2 : KG => kg2.is_loaded = b) (stepTimeline kg) := by
  unfold stepTimeline
  refine mix_bind b _ _ _ _ (mix_withKG b kg _ h) ?_
  intro tl _
  refine mix_bind b _ _ _ _ (mix_withKG b kg _ h) ?_
  intro s _
  split
  · refine mix_withKG_prop b kg _ _ h ?_
    intro kg2 h2
    rw [autoCalculateTimeline_loaded kg kg2 h2]
    exact h
  · refine mix_bind b _ _ _ _ (mix_withKG b kg _ h) ?_
    intro e _
    split
    · refine mix_withKG_prop b kg _ _ h ?_
      intro kg2 h2
      rw [autoCalculateTimeline_loaded kg kg2 h2]
      exact h
    · exact mix_pure b _ _ h

theorem stepValidate_mix (b : Bool) (kg : KG) (h : kg.is_loaded = b) :
    MixPred b
      (fun kg2 : KG => kg2 = kg ∧ validateData kg.dataNodes kg.dataLinks = .ok ())
      (stepValidate kg) := by
  unfold stepValidate
  refine mix_bind b (fun _ => validateData kg.dataNodes kg.dataLinks = .ok ()) _ _ _ ?_ ?_
  · refine mix_withKG_prop b kg _ _ h ?_
    intro u hu
    cases u
    exact hu
  · intro u hu
    exact mix_pure b _ _ ⟨rfl, hu⟩

/-- The master outcome lemma for `_process_raw_data`: an error leaves the
`is_loaded` flag as it was, and a success produces a state with
`is_loaded = true` that validation accepted. -/
theorem processRawData_mix (kg : KG) (raw : Val) :
    MixPred kg.is_loaded
      (fun kg2 : KG => kg2.is_loaded = true
        ∧ validateData kg2.dataNodes kg2.dataLinks = .ok ())
      (processRawData kg raw) := by
  unfold processRawData
  refine mix_bind _ _ _ _ _ (stepMetadata_mix kg.is_loaded kg raw rfl) ?_
  intro kg1 h1
  refine mix_bind _ _ _ _ _ (stepLayers_mix kg.is_loaded kg1 raw h1) ?_
  intro kg2 h2
  refine mix_bind _ _ _ _ _ (stepData_mix kg.is_loaded kg2 raw h2) ?_
  intro kg3 h3
  refine mix_bind _ _ _ _ _ (stepGenLinks_mix kg.is_loaded kg3 h3) ?_
  intro kg4 h4
  refine mix_bind _ _ _ _ _ (stepTimeline_mix kg.is_loaded kg4 h4) ?_
  intro kg5 h5
  refine mix_bind _ _ _ _ _ (stepValidate_mix kg.is_loaded kg5 h5) ?_
  intro kg6 h6
  obtain ⟨rfl, hv⟩ := h6
  exact mix_pure _ _ _ ⟨rfl, hv⟩

/-- C2: on every raw input on which the load pipeline fails, the `is_loaded`
flag afterwards is what it was before the load (`false` for a fresh
instance); and `is_loaded` is set to `true` only when validation of the final
node/link data completed without raising. -/
theorem load_loaded_flag (kg : KG) (raw : Val) :
    (∀ kg2 e, processRawData kg raw = .error (kg2, e) → kg2.is_loaded = kg.is_loaded)
    ∧ (∀ kg2, processRawData kg raw = .ok kg2 →
        kg2.is_loaded = true ∧ validateData kg2.dataNodes kg2.dataLinks = .ok ()) := by
  have hm := processRawData_mix kg raw
  constructor
  · intro kg2 e h
    rw [h] at hm
    exact hm
  · intro kg2 h
    rw [h] at hm
    exact hm

/-- A raw input whose `nodes` entry is not a list: link generation raises
`TypeError` while iterating it. -/
def rawBadW : Val := .dict [("nodes", .int 3)]

/-- The state at the point `processRawData (initKG []) rawBadW` fails. -/
def kgBadW : KG :=
  { config := mergeDefaultConfig []
    dataNodes := .int 3
    dataLinks := .list []
    is_loaded := false }

/-- A well-formed raw input for exercising a successful load. -/
def rawOkW : Val :=
  .dict [("nodes", .list [.dict [("id", .str "a"), ("label", .str "A")]])]

/-- The state after the successful `processRawData (initKG []) rawOkW`. -/
def kgOkW : KG :=
  match processRawData (initKG []) rawOkW with
  | .ok k => k
  | .error (k, _) => k

theorem load_loaded_flag_witness :
    kgBadW.is_loaded = (initKG []).is_loaded
    ∧ (kgOkW.is_loaded = true
        ∧ validateData kgOkW.dataNodes kgOkW.dataLinks = .ok ()) :=
  ⟨(load_loaded_flag (initKG []) rawBadW).1 kgBadW Err.typeError rfl,
   (load_loaded_flag (initKG []) rawOkW).2 kgOkW rfl⟩

/-! ### C1 / C7: referential closure of a successfully loaded model -/

/-- The id values of the nodes (the node-id set of the claim). -/
def idsOf (nodes : List Val) : List Val :=
  nodes.filterMap (fun n => (n.item "id").toOption)

/-- Membership in a list of id values (structural equality, as in the
validator's set membership). -/
def memIds (ids : List Val) (v : Val) : Bool :=
  ids.any (fun x => decide (x = v))

/-- Both endpoints of a link are readable and members of the id set. -/
def linkEndsKnown (ids : List Val) (l : Val) : Bool :=
  match l.item "source", l.item "target" with
  | .ok sv, .ok tv => memIds ids sv && memIds ids tv
  | _, _ => false

/-- Every id in the node's effective parent list is a member of the id set. -/
def parentsKnown (ids : List Val) (n : Val) : Bool :=
  match effParents n with
  | .ok ps => ps.all (memIds ids)
  | .error _ => false

/-- The elements of a list value (empty for non-lists). -/
def asList : Val → List Val
  | .list xs => xs
  | _ => []

theorem setAdd_sub (s : List Val) (v : Val) (s2 : List Val)
    (h : setAdd s v = .ok s2) : ∀ w ∈ s2, w ∈ s ∨ w = v := by
  unfold setAdd at h
  split at h
  · simp only [Except.ok.injEq] at h
    subst h
    intro w hw
    split at hw
    · exact Or.inl hw
    · rw [List.mem_append] at hw
      cases hw with
      | inl hw => exact Or.inl hw
      | inr hw => simp at hw; exact Or.inr hw
  · simp at h

theorem setAdd_mem (s : List Val) (v : Val) (s2 : List Val)
    (h : setAdd s v = .ok s2) : (∀ w ∈ s, w ∈ s2) ∧ memIds s2 v = true := by
  unfold setAdd at h
  split at h
  · simp only [Except.ok.injEq] at h
    subst h
    constructor
    · intro w hw
      split
      · exact hw
      · exact List.mem_append_left _ hw
    · split
      · rename_i hany
        simpa [memIds] using hany
      · simp [memIds]
  · simp at h

theorem checkNodesLoop_subset :
    ∀ (ns : List Val) (i : Nat) (acc ids : List Val),
      checkNodesLoop i acc ns = .ok ids → ∀ v ∈ ids, v ∈ acc ∨ v ∈ idsOf ns := by
  intro ns
  induction ns with
  | nil =>
    intro i acc ids h v hv
    simp only [checkNodesLoop, Except.ok.injEq] at h
    subst h
    exact Or.inl hv
  | cons n rest ih =>
    intro i acc ids h v hv
    unfold checkNodesLoop at h
    rw [ebind_ok_iff] at h
    obtain ⟨hasId, hh, h⟩ := h
    split at h
    · simp at h
    · rw [ebind_ok_iff] at h
      obtain ⟨hasLabel, hl, h⟩ := h
      split at h
      · rw [ebind_ok_iff] at h
        obtain ⟨idv, hidv, h⟩ := h
        simp at h
      · rw [ebind_ok_iff] at h
        obtain ⟨idv, hidv, h⟩ := h
        rw [ebind_ok_iff] at h
        obtain ⟨ids2, hadd, h⟩ := h
        have hidsOf : idsOf (n :: rest) = idv :: idsOf rest := by
          simp [idsOf, hidv, Except.toOption]
        cases ih (i + 1) ids2 ids h v hv with
        | inr hr =>
          right
          rw [hidsOf]
          exact List.mem_cons_of_mem _ hr
        | inl hl2 =>
          cases setAdd_sub acc idv ids2 hadd v hl2 with
          | inl ha => exact Or.inl ha
          | inr hv2 =>
            right
            rw [hidsOf, hv2]
            exact List.mem_cons_self _ _

theorem setMem_true (s : List Val) (v : Val) (h : setMem s v = .ok true) :
    memIds s v = true := by
  unfold setMem at h
  split at h
  · simpa [memIds] using h
  · simp at h

theorem checkLinksLoop_closure :
    ∀ (ls ids : List Val) (i : Nat), checkLinksLoop ids i ls = .ok () →
      ∀ l ∈ ls, linkEndsKnown ids l = true := by
  intro ls
  induction ls with
  | nil =>
    intro ids i h l hl
    simp at hl
  | cons l rest ih =>
    intro ids i h l2 hl2
    unfold checkLinksLoop at h
    rw [ebind_ok_iff] at h
    obtain ⟨hasS, hhs, h⟩ := h
    split at h
    · simp at h
    · rw [ebind_ok_iff] at h
      obtain ⟨hasT, hht, h⟩ := h
      split at h
      · simp at h
      · rw [ebind_ok_iff] at h
        obtain ⟨sv, hsv, h⟩ := h
        rw [ebind_ok_iff] at h
        obtain ⟨sIn, hsin, h⟩ := h
        split at h
        · simp at h
        · rw [ebind_ok_iff] at h
          obtain ⟨tv, htv, h⟩ := h
          rw [ebind_ok_iff] at h
          obtain ⟨tIn, htin, h⟩ := h
          split at h
          · simp at h
          · rcases List.mem_cons.mp hl2 with rfl | hmem
            · rename_i hsTrue htTrue
              have hsIn : sIn = true := by
                cases sIn
                · exact absurd rfl hsTrue
                · rfl
              have htIn : tIn = true := by
                cases tIn
                · exact absurd rfl htTrue
                · rfl
              subst hsIn htIn
              unfold linkEndsKnown
              rw [hsv, htv]
              show (memIds ids sv && memIds ids tv) = true
              rw [setMem_true ids sv hsin, setMem_true ids tv htin]
              rfl
            · exact ih ids (i + 1) h l2 hmem

theorem checkParentList_closure :
    ∀ (ps ids : List Val) (i : Nat) (node : Val),
      checkParentList ids i node ps = .ok () → ∀ p ∈ ps, memIds ids p = true := by
  intro ps
  induction ps with
  | nil =>
    intro ids i node h p hp
    simp at hp
  | cons p rest ih =>
    intro ids i node h p2 hp2
    unfold checkParentList at h
    rw [ebind_ok_iff] at h
    obtain ⟨isIn, hin, h⟩ := h
    split at h
    · rw [ebind_ok_iff] at h
      obtain ⟨idv, hidv, h⟩ := h
      simp at h
    · rcases List.mem_cons.mp hp2 with rfl | hmem
      · rename_i hTrue
        cases isIn with
        | false => exact absurd (rfl : (!false) = true) hTrue
        | true => exact setMem_true ids p2 hin
      · exact ih ids i node h p2 hmem

theorem checkParentsLoop_closure :
    ∀ (ns ids : List Val) (i : Nat), checkParentsLoop ids i ns = .ok () →
      ∀ n ∈ ns, parentsKnown ids n = true := by
  intro ns
  induction ns with
  | nil =>
    intro ids i h n hn
    simp at hn
  | cons n rest ih =>
    intro ids i h n2 hn2
    unfold checkParentsLoop at h
    rw [ebind_ok_iff] at h
    obtain ⟨ps, hps, h⟩ := h
    rw [ebind_ok_iff] at h
    obtain ⟨u, hu, h⟩ := h
    rcases List.mem_cons.mp hn2 with rfl | hmem
    · cases u
      unfold parentsKnown
      rw [hps]
      rw [List.all_eq_true]
      exact checkParentList_closure ps ids i n2 hu
    · exact ih ids (i + 1) h n2 hmem

theorem validateData_ok_parts (nodesV linksV : Val)
    (h : validateData nodesV linksV = .ok ()) :
    ∃ nodes links ids, nodesV = .list nodes ∧ linksV = .list links
      ∧ checkNodesLoop 0 [] nodes = .ok ids
      ∧ checkLinksLoop ids 0 links = .ok ()
      ∧ checkParentsLoop ids 0 nodes = .ok () := by
  cases nodesV <;> try (simp [validateData] at h)
  rename_i nodes
  cases linksV <;> try (simp [validateData] at h)
  rename_i links
  rw [ebind_ok_iff] at h
  obtain ⟨ids, hids, h⟩ := h
  rw [ebind_ok_iff] at h
  obtain ⟨u, hu, h⟩ := h
  cases u
  exact ⟨nodes, links, ids, rfl, rfl, hids, hu, h⟩

theorem memIds_transfer (pool ids : List Val)
    (hsub : ∀ x ∈ ids, x ∈ pool) (v : Val) (h : memIds ids v = true) :
    memIds pool v = true := by
  simp only [memIds, List.any_eq_true, decide_eq_true_eq] at h ⊢
  obtain ⟨x, hx, he⟩ := h
  exact ⟨x, hsub x hx, he⟩

/-- A successful `_process_raw_data` implies validation accepted the final
node/link data. -/
theorem processOk_validate (kg : KG) (raw : Val) (kg2 : KG)
    (h : processRawData kg raw = .ok kg2) :
    validateData kg2.dataNodes kg2.dataLinks = .ok () := by
  have hm := processRawData_mix kg raw
  rw [h] at hm
  exact hm.2

/-- Validation success gives referential closure with respect to the node-id
set of the node list. -/
theorem validate_closure (nodesV linksV : Val)
    (h : validateData nodesV linksV = .ok ()) :
    (asList linksV).all (linkEndsKnown (idsOf (asList nodesV))) = true
    ∧ (asList nodesV).all (parentsKnown (idsOf (asList nodesV))) = true := by
  obtain ⟨nodes, links, ids, hn, hl, hcn, hcl, hcp⟩ := validateData_ok_parts _ _ h
  subst hn hl
  have hsub : ∀ x ∈ ids, x ∈ idsOf nodes := by
    intro x hx
    cases checkNodesLoop_subset nodes 0 [] ids hcn x hx with
    | inl hx2 => simp at hx2
    | inr hx2 => exact hx2
  constructor
  · rw [List.all_eq_true]
    intro l hl2
    have h2 := checkLinksLoop_closure links ids 0 hcl l hl2
    unfold linkEndsKnown at h2 ⊢
    cases hsv : l.item "source" with
    | error e => rw [hsv] at h2; simp at h2
    | ok sv =>
      rw [hsv] at h2
      cases htv : l.item "target" with
      | error e => rw [htv] at h2; simp at h2
      | ok tv =>
        rw [htv] at h2
        show (memIds (idsOf nodes) sv && memIds (idsOf nodes) tv) = true
        have h3 : (memIds ids sv && memIds ids tv) = true := h2
        rw [Bool.and_eq_true] at h3
        rw [memIds_transfer _ ids hsub _ h3.1, memIds_transfer _ ids hsub _ h3.2]
        rfl
  · rw [List.all_eq_true]
    intro n hn2
    have h2 := checkParentsLoop_closure nodes ids 0 hcp n hn2
    unfold parentsKnown at h2 ⊢
    cases hps : effParents n with
    | error e => rw [hps] at h2; simp at h2
    | ok ps =>
      rw [hps] at h2
      show ps.all (memIds (idsOf nodes)) = true
      have h3 : ps.all (memIds ids) = true := h2
      rw [List.all_eq_true] at h3 ⊢
      intro p hp
      exact memIds_transfer _ ids hsub p (h3 p hp)

/-- C1: for every raw input mapping on which the load pipeline succeeds,
every link in the resulting model has its source and target in the node-id
set, and every id in every node's effective parent list is in the node-id
set. -/
theorem load_referential_closure (kg : KG) (raw : Val) (kg2 : KG)
    (h : processRawData kg raw = .ok kg2) :
    (asList kg2.dataLinks).all (linkEndsKnown (idsOf (asList kg2.dataNodes))) = true
    ∧ (asList kg2.dataNodes).all (parentsKnown (idsOf (asList kg2.dataNodes))) = true :=
  validate_closure kg2.dataNodes kg2.dataLinks (processOk_validate kg raw kg2 h)

/-- A raw input with two linked nodes for exercising closure. -/
def rawC1W : Val :=
  .dict [("nodes", .list
    [.dict [("id", .str "n1"), ("label", .str "L1")],
     .dict [("id", .str "n2"), ("label", .str "L2"), ("parent_node", .str "n1")]])]

/-- The state after the successful `processRawData (initKG []) rawC1W`. -/
def kgC1W : KG :=
  match processRawData (initKG []) rawC1W with
  | .ok k => k
  | .error (k, _) => k

theorem load_referential_closure_witness :
    (asList kgC1W.dataLinks).all (linkEndsKnown (idsOf (asList kgC1W.dataNodes))) = true
    ∧ (asList kgC1W.dataNodes).all (parentsKnown (idsOf (asList kgC1W.dataNodes))) = true :=
  load_referential_closure (initKG []) rawC1W kgC1W rfl

/-- Scenario C's raw input: `missing` is a dangling parent reference. -/
def rawDanglingW : Val :=
  .dict [("nodes", .list
    [.dict [("id", .str "n1"), ("label", .str "L1")],
     .dict [("id", .str "n2"), ("label", .str "L2"),
            ("parent_nodes", .list [.str "n1", .str "missing"])]])]

/-- The state at the point `processRawData (initKG []) rawDanglingW` fails. -/
def kgDanglingW : KG :=
  match processRawData (initKG []) rawDanglingW with
  | .ok k => k
  | .error (k, _) => k

/-- C7: a dangling parent reference is never silently dropped from a
successfully loaded model — every successful load has all effective parent
ids in the node-id set — and on Scenario C's input (node `n2` with
`parent_nodes = ["n1", "missing"]`) the load raises an unknown-reference
`ValueError` naming `missing`. -/
theorem dangling_parent_fatal :
    (∀ (kg : KG) (raw : Val) (kg2 : KG), processRawData kg raw = .ok kg2 →
      (asList kg2.dataNodes).all (parentsKnown (idsOf (asList kg2.dataNodes))) = true)
    ∧ processRawData (initKG []) rawDanglingW =
        .error (kgDanglingW,
          .valueError "Node 1 (\x27n2\x27) references unknown parent: missing") := by
  constructor
  · intro kg raw kg2 h
    exact (validate_closure kg2.dataNodes kg2.dataLinks (processOk_validate kg raw kg2 h)).2
  · rfl

theorem dangling_parent_fatal_witness :
    (asList kgOkW.dataNodes).all (parentsKnown (idsOf (asList kgOkW.dataNodes))) = true :=
  dangling_parent_fatal.1 (initKG []) rawOkW kgOkW rfl

/-! ### C8: self-reference is permitted and yields one self-link -/

theorem anyIdMatches_true (pid : Val) :
    ∀ (nodes : List Val),
      (∀ n ∈ nodes, ∃ v, n.item "id" = .ok v) →
      (∃ n ∈ nodes, n.item "id" = .ok pid) →
      anyIdMatches pid nodes = .ok true := by
  intro nodes
  induction nodes with
  | nil =>
    intro _ h
    simp at h
  | cons n rest ih =>
    intro hids hex
    obtain ⟨v, hv⟩ := hids n (List.mem_cons_self n rest)
    unfold anyIdMatches
    rw [hv]
    simp only [except_bind_ok]
    by_cases he : v = pid
    · rw [if_pos he]
    · rw [if_neg he]
      apply ih (fun m hm => hids m (List.mem_cons_of_mem _ hm))
      obtain ⟨m, hm, hmid⟩ := hex
      rcases List.mem_cons.mp hm with rfl | hm2
      · exfalso
        apply he
        have h2 := hv.symm.trans hmid
        injection h2
      · exact ⟨m, hm2, hmid⟩

/-- The raw input for the concrete part of C8: one node declaring itself as
its parent. -/
def rawSelfW : Val :=
  .dict [("nodes", .list
    [.dict [("id", .str "a"), ("label", .str "A"), ("parent_node", .str "a")]])]

/-- The state after the successful `processRawData (initKG []) rawSelfW`. -/
def kgSelfW : KG :=
  match processRawData (initKG []) rawSelfW with
  | .ok k => k
  | .error (k, _) => k

/-- C8: a node whose effective parent declaration is exactly its own id
contributes exactly one link, with `source = target =` that id (for any node
list in which every node's id is readable); and on a concrete input with a
self-referencing node the whole load succeeds and produces exactly that one
self-link. -/
theorem self_parent_single_link :
    (∀ (nodes : List Val) (es : List (String × Val)) (s : String),
      Val.dict es ∈ nodes →
      (∀ n ∈ nodes, ∃ v, n.item "id" = .ok v) →
      dget es "id" = some (.str s) →
      effParents (.dict es) = .ok [.str s] →
      linksFromNode nodes (.dict es) = .ok [mkLink (.str s) (.str s)])
    ∧ (processRawData (initKG []) rawSelfW = .ok kgSelfW
        ∧ kgSelfW.dataLinks = .list [mkLink (.str "a") (.str "a")]
        ∧ kgSelfW.is_loaded = true) := by
  constructor
  · intro nodes es s hmem hids hid heff
    unfold linksFromNode
    rw [heff]
    simp only [except_bind_ok]
    unfold linksForParents
    have hitem : (Val.dict es).item "id" = .ok (.str s) := by
      simp [Val.item, hid]
    rw [anyIdMatches_true (.str s) nodes hids ⟨.dict es, hmem, hitem⟩]
    simp only [except_bind_ok, if_true]
    rw [hitem]
    simp only [except_bind_ok]
    unfold linksForParents
    rfl
  · exact ⟨rfl, rfl, rfl⟩

/-- A self-referencing node for exercising the general part of C8. -/
def nodeSelfW : List (String × Val) :=
  [("id", .str "b"), ("label", .str "B"), ("parent_nodes", .list [.str "b"])]

theorem self_parent_single_link_witness :
    linksFromNode [Val.dict nodeSelfW] (Val.dict nodeSelfW) =
      .ok [mkLink (.str "b") (.str "b")] :=
  self_parent_single_link.1 [Val.dict nodeSelfW] nodeSelfW "b"
    (List.mem_singleton.mpr rfl)
    (fun n hn => by
      rw [List.mem_singleton] at hn
      subst hn
      exact ⟨.str "b", rfl⟩)
    rfl rfl

/-! ### C9: render output requires a completed load -/

/-- C9: whenever `generate_html` is invoked while `is_loaded` is false, it
raises `ValueError` rather than producing any output, for every injected
templating function and JavaScript-library read result. -/
theorem generateHtml_requires_loaded (template : KG → Bool → String → String)
    (readJsLib : Except Err String) (kg : KG) (standalone : Bool)
    (h : kg.is_loaded = false) :
    generateHtml template readJsLib kg standalone =
      .error (.valueError "No data loaded. Use load_yaml() or load_dict() first.") := by
  simp [generateHtml, h]

theorem generateHtml_requires_loaded_witness :
    generateHtml (fun _ _ _ => "") (.ok "") (initKG []) true =
      .error (.valueError "No data loaded. Use load_yaml() or load_dict() first.") :=
  generateHtml_requires_loaded (fun _ _ _ => "") (.ok "") (initKG []) true rfl

/-! ### C4 / C5 counterexamples -/

/-- C4 (counterexample): a node sequence containing a node whose `id` is
present but the *empty string* passes validation — validation checks only the
presence of the `id` field, so the claim that an empty id is rejected is
false. -/
theorem validateData_accepts_empty_id :
    validateData (.list [.dict [("id", .str ""), ("label", .str "L")]]) (.list []) = .ok () :=
  rfl

/-- A node record passing the validator's per-node checks: `id` and `label`
present and the id value hashable. -/
def nodeIdLabelOk (n : Val) : Bool :=
  match Val.mem "id" n, Val.mem "label" n with
  | .ok true, .ok true =>
    match n.item "id" with
    | .ok v => v.hashable
    | .error _ => false
  | _, _ => false

theorem checkNodesLoop_missing_id :
    ∀ (pre : List Val) (i : Nat) (acc : List Val) (n : Val) (post : List Val),
      (∀ m ∈ pre, nodeIdLabelOk m = true) →
      Val.mem "id" n = .ok false →
      checkNodesLoop i acc (pre ++ n :: post) =
        .error (.valueError ("Node " ++ toString (i + pre.length)
          ++ " is missing required \x27id\x27 field")) := by
  intro pre
  induction pre with
  | nil =>
    intro i acc n post hpre hn
    rw [List.nil_append]
    unfold checkNodesLoop
    rw [hn]
    simp
  | cons m rest ih =>
    intro i acc n post hpre hn
    have hm := hpre m (List.mem_cons_self m rest)
    unfold nodeIdLabelOk at hm
    cases h1 : Val.mem "id" m with
    | error e => rw [h1] at hm; simp at hm
    | ok b1 =>
      rw [h1] at hm
      cases b1 with
      | false => simp at hm
      | true =>
        cases h2 : Val.mem "label" m with
        | error e => rw [h2] at hm; simp at hm
        | ok b2 =>
          rw [h2] at hm
          cases b2 with
          | false => simp at hm
          | true =>
            cases hid : m.item "id" with
            | error e => rw [hid] at hm; simp at hm
            | ok v =>
              rw [hid] at hm
              have hhash : v.hashable = true := hm
              rw [List.cons_append]
              unfold checkNodesLoop
              rw [h1, h2, hid]
              simp only [except_bind_ok, Bool.not_true, Bool.false_eq_true, if_false]
              unfold setAdd
              rw [hhash]
              simp only [if_true, except_bind_ok]
              rw [ih (i + 1) _ n post (fun m2 hm2 => hpre m2 (List.mem_cons_of_mem m hm2)) hn]
              have harith : i + 1 + rest.length = i + (m :: rest).length := by
                rw [List.length_cons]
                omega
              rw [harith]

/-- C4 (amended): validation rejects a node whose `id` *field is absent*,
with an error naming that node's index (provided the nodes before it pass
their checks); a node whose `id` field is present but holds the empty string
is accepted — only presence of the field is checked, not non-emptiness. -/
theorem validate_missing_id_names_index :
    (∀ (pre : List Val) (n : Val) (post : List Val) (links : List Val),
      (∀ m ∈ pre, nodeIdLabelOk m = true) →
      Val.mem "id" n = .ok false →
      validateData (.list (pre ++ n :: post)) (.list links) =
        .error (.valueError ("Node " ++ toString pre.length
          ++ " is missing required \x27id\x27 field")))
    ∧ (∀ lab : Val,
        validateData (.list [.dict [("id", .str ""), ("label", lab)]]) (.list []) = .ok ()) := by
  constructor
  · intro pre n post links hpre hn
    simp only [validateData]
    rw [checkNodesLoop_missing_id pre 0 [] n post hpre hn]
    simp
  · intro lab
    rfl

theorem validate_missing_id_names_index_witness :
    validateData
        (.list [.dict [("id", .str "x"), ("label", .str "L")], .dict [("label", .str "M")]])
        (.list []) =
      .error (.valueError "Node 1 is missing required \x27id\x27 field")
    ∧ validateData (.list [.dict [("id", .str ""), ("label", .str "LW")]]) (.list []) = .ok () := by
  constructor
  · have h := validate_missing_id_names_index.1
      [.dict [("id", .str "x"), ("label", .str "L")]] (.dict [("label", .str "M")]) [] []
      (by decide) rfl
    simpa using h
  · exact validate_missing_id_names_index.2 (.str "LW")

/-! #### C5 (amended): the truthy timespan pool -/

/-- The values one node contributes to the timeline pool: its
`timespan.start` and `timespan.end` when present *and truthy*. -/
def nodePoolContrib (n : Val) : List Val :=
  match n with
  | .dict es =>
    match dget es "timespan" with
    | some (.dict ts) =>
      (match dget ts "start" with
       | some v => if v.truthy then [v] else []
       | Option.none => [])
      ++ (match dget ts "end" with
          | some v => if v.truthy then [v] else []
          | Option.none => [])
    | _ => []
  | _ => []

/-- The pooled scalars (starts and ends together, in node order). -/
def timePool (nodes : List Val) : List Val :=
  (nodes.map nodePoolContrib).flatten

/-- The node is a dict and its `timespan`, when present, is a dict. -/
def timespanShaped (n : Val) : Bool :=
  match n with
  | .dict es =>
    match dget es "timespan" with
    | some (.dict _) => true
    | some _ => false
    | Option.none => true
  | _ => false

/-- All values are ints. -/
def allInts (vs : List Val) : Bool :=
  vs.all (fun v => match v with | .int _ => true | _ => false)

/-- The ints of a value list. -/
def intsOf (vs : List Val) : List Int :=
  vs.filterMap (fun v => match v with | .int n => some n | _ => Option.none)

/-- Minimum of a non-empty int list (0 for the empty list). -/
def intListMin : List Int → Int
  | [] => 0
  | x :: xs => xs.foldl min x

/-- Maximum of a non-empty int list (0 for the empty list). -/
def intListMax : List Int → Int
  | [] => 0
  | x :: xs => xs.foldl max x

theorem allInts_map (vs : List Val) (h : allInts vs = true) :
    vs = (intsOf vs).map Val.int := by
  induction vs with
  | nil => rfl
  | cons v rest ih =>
    rw [allInts, List.all_cons, Bool.and_eq_true] at h
    obtain ⟨h1, h2⟩ := h
    have hrest : rest = (intsOf rest).map Val.int := ih h2
    cases v with
    | int n =>
      rw [intsOf, List.filterMap_cons]
      simp only [List.map_cons]
      rw [intsOf] at hrest
      rw [← hrest]
    | none => simp at h1
    | bool b => simp at h1
    | float q => simp at h1
    | str s => simp at h1
    | list xs => simp at h1
    | dict es => simp at h1

theorem collectYears_eq :
    ∀ (nodes : List Val) (acc : List Val),
      (∀ n ∈ nodes, timespanShaped n = true) →
      collectYears acc nodes = .ok (acc ++ timePool nodes) := by
  intro nodes
  induction nodes with
  | nil =>
    intro acc _
    simp [collectYears, timePool]
  | cons n rest ih =>
    intro acc hsh
    have hn := hsh n (List.mem_cons_self n rest)
    have hrest : ∀ m ∈ rest, timespanShaped m = true :=
      fun m hm => hsh m (List.mem_cons_of_mem n hm)
    unfold timespanShaped at hn
    cases n <;> simp at hn
    rename_i es
    cases hts : dget es "timespan" with
    | none =>
      unfold collectYears
      simp only [Val.mem, hasKey, hts, Option.isSome_none, Bool.false_eq_true, if_false,
        except_bind_ok]
      rw [ih acc hrest]
      simp [timePool, nodePoolContrib, hts]
    | some tsv =>
      rw [hts] at hn
      cases tsv <;> simp at hn
      rename_i ts
      unfold collectYears
      simp only [Val.mem, hasKey, hts, Option.isSome_some, if_true, except_bind_ok,
        Val.item]
      cases hstart : dget ts "start" with
      | none =>
        simp only [Option.isSome_none, Bool.false_eq_true, if_false, except_pure,
          except_bind_ok]
        cases hend : dget ts "end" with
        | none =>
          simp only [Option.isSome_none, Bool.false_eq_true, if_false, except_pure,
            except_bind_ok]
          rw [ih acc hrest]
          simp [timePool, nodePoolContrib, hts, hstart, hend]
        | some ev =>
          simp only [Option.isSome_some, if_true, except_bind_ok, except_pure]
          rw [ih _ hrest]
          by_cases hev : ev.truthy <;>
            simp [hev, timePool, nodePoolContrib, hts, hstart, hend, List.append_assoc]
      | some sv =>
        simp only [Option.isSome_some, if_true, except_bind_ok, except_pure]
        cases hend : dget ts "end" with
        | none =>
          simp only [Option.isSome_none, Bool.false_eq_true, if_false, except_pure,
            except_bind_ok]
          rw [ih _ hrest]
          by_cases hsv : sv.truthy <;>
            simp [hsv, timePool, nodePoolContrib, hts, hstart, hend, List.append_assoc]
        | some ev =>
          simp only [Option.isSome_some, if_true, except_bind_ok, except_pure]
          rw [ih _ hrest]
          by_cases hsv : sv.truthy <;> by_cases hev : ev.truthy <;>
            simp [hsv, hev, timePool, nodePoolContrib, hts, hstart, hend,
              List.append_assoc]

theorem pyLt_int (a b : Int) : pyLt (.int a) (.int b) = .ok (decide (a < b)) := by
  simp [pyLt, Val.toNum, Int.cast_lt]

theorem pyMinFold_ints (xs : List Int) :
    ∀ (x : Int), pyMinFold (.int x) (xs.map .int) = .ok (.int (xs.foldl min x)) := by
  induction xs with
  | nil => intro x; rfl
  | cons y ys ih =>
    intro x
    rw [List.map_cons]
    unfold pyMinFold
    rw [pyLt_int]
    simp only [except_bind_ok]
    have harg : (if decide (y < x) = true then Val.int y else Val.int x)
        = Val.int (min x y) := by
      by_cases h : y < x
      · simp [h]
        omega
      · simp [h]
        omega
    rw [harg, ih]
    rw [List.foldl_cons]

theorem pyMin_ints (ns : List Int) (h : ns ≠ []) :
    pyMin (ns.map .int) = .ok (.int (intListMin ns)) := by
  cases ns with
  | nil => exact absurd rfl h
  | cons m ms =>
    rw [List.map_cons]
    show pyMinFold (Val.int m) (ms.map Val.int) = .ok (.int (intListMin (m :: ms)))
    rw [pyMinFold_ints]
    rfl

theorem pyMaxFold_ints (xs : List Int) :
    ∀ (x : Int), pyMaxFold (.int x) (xs.map .int) = .ok (.int (xs.foldl max x)) := by
  induction xs with
  | nil => intro x; rfl
  | cons y ys ih =>
    intro x
    rw [List.map_cons]
    unfold pyMaxFold
    rw [pyLt_int]
    simp only [except_bind_ok]
    have harg : (if decide (x < y) = true then Val.int y else Val.int x)
        = Val.int (max x y) := by
      by_cases h : x < y
      · simp [h]
        omega
      · simp [h]
        omega
    rw [harg, ih]
    rw [List.foldl_cons]

theorem pyMax_ints (ns : List Int) (h : ns ≠ []) :
    pyMax (ns.map .int) = .ok (.int (intListMax ns)) := by
  cases ns with
  | nil => exact absurd rfl h
  | cons m ms =>
    rw [List.map_cons]
    show pyMaxFold (Val.int m) (ms.map Val.int) = .ok (.int (intListMax (m :: ms)))
    rw [pyMaxFold_ints]
    rfl

/-- Helper: the full characterization of `_auto_calculate_timeline` on
well-shaped nodes with an integer pool. -/
theorem autoCalculateTimeline_spec (kg : KG) (nodes : List Val)
    (tl : List (String × Val)) (ts te : Val)
    (hnodes : kg.dataNodes = .list nodes)
    (htl : dget kg.config "timeline" = some (.dict tl))
    (hts : dget tl "start" = some ts)
    (hte : dget tl "end" = some te)
    (hshape : ∀ n ∈ nodes, timespanShaped n = true)
    (hint : allInts (timePool nodes) = true) :
    autoCalculateTimeline kg =
      .ok (if (timePool nodes).isEmpty ∨ (ts ≠ Val.none ∧ te ≠ Val.none) then kg
        else { kg with config := dset kg.config "timeline" (.dict
          (if te = Val.none
           then dset
             (if ts = Val.none
              then dset tl "start" (.int (intListMin (intsOf (timePool nodes))))
              else tl)
             "end" (.int (intListMax (intsOf (timePool nodes))))
           else
             (if ts = Val.none
              then dset tl "start" (.int (intListMin (intsOf (timePool nodes))))
              else tl))) }) := by
  unfold autoCalculateTimeline
  rw [hnodes]
  simp only [Val.iter, except_bind_ok]
  rw [collectYears_eq nodes [] hshape]
  simp only [except_bind_ok, List.nil_append]
  by_cases hpool : (timePool nodes).isEmpty
  · simp [hpool]
  · have hmap := allInts_map _ hint
    have hne : intsOf (timePool nodes) ≠ [] := by
      intro h0
      rw [h0] at hmap
      simp at hmap
      rw [hmap] at hpool
      simp at hpool
    have hminEq : pyMin (timePool nodes) = .ok (.int (intListMin (intsOf (timePool nodes)))) := by
      conv_lhs => rw [hmap]
      exact pyMin_ints _ hne
    have hmaxEq : pyMax (timePool nodes) = .ok (.int (intListMax (intsOf (timePool nodes)))) := by
      conv_lhs => rw [hmap]
      exact pyMax_ints _ hne
    simp only [hpool, Bool.false_eq_true, if_false]
    simp only [cfgItem, Val.item, htl, except_bind_ok]
    rw [hts]
    simp only [except_bind_ok]
    by_cases hts0 : ts = Val.none
    · rw [if_pos hts0]
      rw [hminEq]
      simp only [except_bind_ok, Val.setItem]
      unfold autoCalcEnd
      simp only [cfgItem, Val.item]
      rw [show dget (dset kg.config "timeline"
        (.dict (dset tl "start" (.int (intListMin (intsOf (timePool nodes))))))) "timeline"
        = some (.dict (dset tl "start" (.int (intListMin (intsOf (timePool nodes))))))
        by rw [dget_dset]; simp]
      simp only [except_bind_ok]
      rw [show dget (dset tl "start" (.int (intListMin (intsOf (timePool nodes))))) "end"
        = some te by rw [dget_dset]; simp [hte]]
      simp only [except_bind_ok]
      by_cases hte0 : te = Val.none
      · rw [if_pos hte0]
        rw [hmaxEq]
        simp only [except_bind_ok, Val.setItem, except_pure]
        rw [if_neg (by simp [hts0, hte0]), dset_dset_same]
        simp [hts0, hte0, hnodes]
      · rw [if_neg hte0]
        rw [if_neg (by simp [hts0])]
        simp [hts0, hte0, hnodes]
    · rw [if_neg hts0]
      unfold autoCalcEnd
      simp only [cfgItem, Val.item, htl, except_bind_ok]
      rw [hte]
      simp only [except_bind_ok]
      by_cases hte0 : te = Val.none
      · rw [if_pos hte0]
        rw [hmaxEq]
        simp only [except_bind_ok, Val.setItem, except_pure]
        rw [if_neg (by simp [hte0])]
        simp [hts0, hte0, hnodes]
      · rw [if_neg hte0]
        rw [if_pos (Or.inr ⟨hts0, hte0⟩)]
        rfl

/-- C5 (amended): timeline auto-calculation pools every *present and truthy*
`timespan.start` / `timespan.end` value across all nodes (starts and ends
together; `0`, `None` and other falsy values are skipped); if the pool is
non-empty, an unset (`None`) start becomes the minimum of the pool and an
unset end becomes the maximum; an already-set field is never overwritten; if
the pool is empty nothing changes and no error is raised. -/
theorem autoCalculateTimeline_truthy_pool (kg : KG) (nodes : List Val)
    (tl : List (String × Val)) (ts te : Val)
    (hnodes : kg.dataNodes = .list nodes)
    (htl : dget kg.config "timeline" = some (.dict tl))
    (hts : dget tl "start" = some ts)
    (hte : dget tl "end" = some te)
    (hshape : ∀ n ∈ nodes, timespanShaped n = true)
    (hint : allInts (timePool nodes) = true) :
    autoCalculateTimeline kg =
      .ok (if (timePool nodes).isEmpty ∨ (ts ≠ Val.none ∧ te ≠ Val.none) then kg
        else { kg with config := dset kg.config "timeline" (.dict
          (if te = Val.none
           then dset
             (if ts = Val.none
              then dset tl "start" (.int (intListMin (intsOf (timePool nodes))))
              else tl)
             "end" (.int (intListMax (intsOf (timePool nodes))))
           else
             (if ts = Val.none
              then dset tl "start" (.int (intListMin (intsOf (timePool nodes))))
              else tl))) }) :=
  autoCalculateTimeline_spec kg nodes tl ts te hnodes htl hts hte hshape hint

/-- A state with one timespan-carrying node, an unset start and a set end. -/
def kgTlW : KG :=
  { config := [("timeline", .dict [("start", Val.none), ("end", .int 1)])]
    dataNodes := .list [.dict
      [("id", .str "t"), ("label", .str "T"),
       ("timespan", .dict [("start", .int 2020), ("end", .int 2022)])]]
    dataLinks := .list []
    is_loaded := false }

theorem autoCalculateTimeline_truthy_pool_witness :
    autoCalculateTimeline kgTlW =
      .ok { kgTlW with
              config := [("timeline", .dict [("start", .int 2020), ("end", .int 1)])] } := by
  rw [autoCalculateTimeline_truthy_pool kgTlW
    [.dict [("id", .str "t"), ("label", .str "T"),
            ("timespan", .dict [("start", .int 2020), ("end", .int 2022)])]]
    [("start", Val.none), ("end", .int 1)] Val.none (.int 1)
    rfl rfl rfl rfl (by decide) (by decide)]
  rfl

/-! ### C10: no uniqueness check on node ids -/

theorem toOption_eq_some {ε α : Type} (r : Except ε α) (a : α) :
    r.toOption = some a ↔ r = .ok a := by
  cases r <;> simp [Except.toOption]

theorem mem_idsOf (nodes : List Val) (x : Val) :
    x ∈ idsOf nodes ↔ ∃ n ∈ nodes, n.item "id" = .ok x := by
  simp [idsOf, List.mem_filterMap, toOption_eq_some]

theorem memIds_eq_mem (ids : List Val) (v : Val) :
    memIds ids v = true ↔ v ∈ ids := by
  simp [memIds, List.any_eq_true]

/-- `effParents` never raises on a dict node. -/
theorem effParents_dict_ok (es : List (String × Val)) :
    ∃ ps, effParents (.dict es) = .ok ps := by
  unfold effParents
  simp only [Val.attrGet, except_bind_ok, except_pure]
  split
  · exact ⟨_, rfl⟩
  · split
    · exact ⟨_, rfl⟩
    · exact ⟨_, rfl⟩

theorem linksForParents_ok (allNodes : List Val)
    (hall : ∀ n ∈ allNodes, ∃ v, n.item "id" = .ok v)
    (node : Val) (tid : Val) (hnode : node.item "id" = .ok tid)
    (htid : tid ∈ idsOf allNodes) :
    ∀ (ps : List Val), (∀ p ∈ ps, p ∈ idsOf allNodes) →
      ∃ ls, linksForParents allNodes node ps = .ok ls
        ∧ ∀ l ∈ ls, ∃ p t, l = mkLink p t ∧ p ∈ idsOf allNodes ∧ t ∈ idsOf allNodes := by
  intro ps
  induction ps with
  | nil =>
    intro _
    exact ⟨[], rfl, by simp⟩
  | cons p rest ih =>
    intro hps
    obtain ⟨ls, hls, hshape⟩ := ih (fun q hq => hps q (List.mem_cons_of_mem _ hq))
    have hp := hps p (List.mem_cons_self p rest)
    obtain ⟨n0, hn0, hn0id⟩ := (mem_idsOf allNodes p).mp hp
    have hany : anyIdMatches p allNodes = .ok true :=
      anyIdMatches_true p allNodes hall ⟨n0, hn0, hn0id⟩
    refine ⟨mkLink p tid :: ls, ?_, ?_⟩
    · unfold linksForParents
      rw [hany]
      simp only [except_bind_ok, if_true]
      rw [hnode]
      simp only [except_bind_ok]
      rw [hls]
      rfl
    · intro l hl
      rcases List.mem_cons.mp hl with rfl | hl2
      · exact ⟨p, tid, rfl, hp, htid⟩
      · exact hshape l hl2

theorem genLinksLoop_ok (allNodes : List Val)
    (hall : ∀ n ∈ allNodes, ∃ v, n.item "id" = .ok v) :
    ∀ (ns : List Val), (∀ n ∈ ns, n ∈ allNodes) →
      (∀ n ∈ ns, parentsKnown (idsOf allNodes) n = true) →
      ∀ acc, ∃ ls, genLinksLoop allNodes acc ns = .ok (acc ++ ls)
        ∧ ∀ l ∈ ls, ∃ p t, l = mkLink p t ∧ p ∈ idsOf allNodes ∧ t ∈ idsOf allNodes := by
  intro ns
  induction ns with
  | nil =>
    intro _ _ acc
    exact ⟨[], by simp [genLinksLoop], by simp⟩
  | cons n rest ih =>
    intro hsub hpar acc
    have hn := hpar n (List.mem_cons_self n rest)
    unfold parentsKnown at hn
    cases hps : effParents n with
    | error e => rw [hps] at hn; simp at hn
    | ok ps =>
      rw [hps] at hn
      have hn2 : ps.all (memIds (idsOf allNodes)) = true := hn
      rw [List.all_eq_true] at hn2
      obtain ⟨tid, htidok⟩ := hall n (hsub n (List.mem_cons_self n rest))
      have htid : tid ∈ idsOf allNodes :=
        (mem_idsOf allNodes tid).mpr ⟨n, hsub n (List.mem_cons_self n rest), htidok⟩
      obtain ⟨ls1, hls1, hsh1⟩ := linksForParents_ok allNodes hall n tid htidok htid ps
        (fun p hp => (memIds_eq_mem _ _).mp (hn2 p hp))
      obtain ⟨ls2, hls2, hsh2⟩ := ih (fun m hm => hsub m (List.mem_cons_of_mem _ hm))
        (fun m hm => hpar m (List.mem_cons_of_mem _ hm)) (acc ++ ls1)
      refine ⟨ls1 ++ ls2, ?_, ?_⟩
      · unfold genLinksLoop
        unfold linksFromNode
        rw [hps]
        simp only [except_bind_ok]
        rw [hls1]
        simp only [except_bind_ok]
        rw [hls2, List.append_assoc]
      · intro l hl
        rcases List.mem_append.mp hl with h1 | h2
        · exact hsh1 l h1
        · exact hsh2 l h2

/-- A node record as accepted by the whole pipeline: a dict whose `id` is a
string, whose `label` is present and whose timespan (when present) is a dict
contributing only integers to the pool. -/
def plainNode (n : Val) : Bool :=
  match n with
  | .dict es =>
    (match dget es "id" with
     | some (.str _) => true
     | _ => false)
    && hasKey es "label"
    && timespanShaped n
    && allInts (nodePoolContrib n)
  | _ => false

theorem plain_parts (es : List (String × Val))
    (h : plainNode (.dict es) = true) :
    (∃ s, dget es "id" = some (.str s))
    ∧ hasKey es "label" = true
    ∧ timespanShaped (.dict es) = true
    ∧ allInts (nodePoolContrib (.dict es)) = true := by
  unfold plainNode at h
  simp only [Bool.and_eq_true] at h
  obtain ⟨⟨⟨h1, h2⟩, h3⟩, h4⟩ := h
  refine ⟨?_, h2, h3, h4⟩
  cases hid : dget es "id" with
  | none => rw [hid] at h1; simp at h1
  | some v =>
    rw [hid] at h1
    cases v <;> simp at h1
    rename_i s
    exact ⟨s, rfl⟩

theorem plain_item_id (n : Val) (h : plainNode n = true) :
    ∃ s, n.item "id" = .ok (.str s) := by
  cases n with
  | dict es =>
    obtain ⟨⟨s, hs⟩, _, _, _⟩ := plain_parts es h
    exact ⟨s, by simp [Val.item, hs]⟩
  | none => simp [plainNode] at h
  | bool b => simp [plainNode] at h
  | int m => simp [plainNode] at h
  | float q => simp [plainNode] at h
  | str s => simp [plainNode] at h
  | list xs => simp [plainNode] at h

theorem idsOf_str (nodes : List Val) (h : ∀ n ∈ nodes, plainNode n = true) :
    ∀ x ∈ idsOf nodes, ∃ s, x = .str s := by
  intro x hx
  obtain ⟨n, hn, hid⟩ := (mem_idsOf nodes x).mp hx
  obtain ⟨s, hs⟩ := plain_item_id n (h n hn)
  rw [hid] at hs
  exact ⟨s, by injection hs⟩

theorem allInts_append (a b : List Val) :
    allInts (a ++ b) = (allInts a && allInts b) := by
  simp [allInts, List.all_append]

theorem allInts_timePool (nodes : List Val)
    (h : ∀ n ∈ nodes, allInts (nodePoolContrib n) = true) :
    allInts (timePool nodes) = true := by
  induction nodes with
  | nil => rfl
  | cons n rest ih =>
    have : timePool (n :: rest) = nodePoolContrib n ++ timePool rest := by
      simp [timePool]
    rw [this, allInts_append, h n (List.mem_cons_self n rest),
      ih (fun m hm => h m (List.mem_cons_of_mem n hm))]
    rfl

theorem checkNodesLoop_ok :
    ∀ (ns : List Val) (i : Nat) (acc : List Val),
      (∀ n ∈ ns, plainNode n = true) →
      ∃ ids, checkNodesLoop i acc ns = .ok ids
        ∧ (∀ x ∈ acc, x ∈ ids) ∧ (∀ x ∈ idsOf ns, x ∈ ids) := by
  intro ns
  induction ns with
  | nil =>
    intro i acc _
    exact ⟨acc, rfl, fun x h => h, by simp [idsOf]⟩
  | cons n rest ih =>
    intro i acc hplain
    have hn := hplain n (List.mem_cons_self n rest)
    cases n with
    | none => simp [plainNode] at hn
    | bool b => simp [plainNode] at hn
    | int m => simp [plainNode] at hn
    | float q => simp [plainNode] at hn
    | str s0 => simp [plainNode] at hn
    | list xs => simp [plainNode] at hn
    | dict es =>
      obtain ⟨⟨s, hid⟩, hlab, _, _⟩ := plain_parts es hn
      obtain ⟨ids, hrec, hacc, hsubr⟩ :=
        ih (i + 1)
          (if acc.any (fun x => decide (x = Val.str s)) then acc else acc ++ [Val.str s])
          (fun m hm => hplain m (List.mem_cons_of_mem _ hm))
      refine ⟨ids, ?_, ?_, ?_⟩
      · unfold checkNodesLoop
        rw [show Val.mem "id" (Val.dict es) = .ok true by simp [Val.mem, hasKey, hid]]
        simp only [except_bind_ok, Bool.not_true, Bool.false_eq_true, if_false]
        rw [show Val.mem "label" (Val.dict es) = .ok true by simp [Val.mem, hlab]]
        simp only [except_bind_ok, Bool.not_true, Bool.false_eq_true, if_false]
        rw [show Val.item (Val.dict es) "id" = .ok (Val.str s) by simp [Val.item, hid]]
        simp only [except_bind_ok]
        unfold setAdd
        simp only [Val.hashable, if_true, except_bind_ok]
        exact hrec
      · intro x hx
        apply hacc
        split
        · exact hx
        · exact List.mem_append_left _ hx
      · intro x hx
        have hids : idsOf (Val.dict es :: rest) = Val.str s :: idsOf rest := by
          simp [idsOf, Val.item, hid, Except.toOption]
        rw [hids] at hx
        rcases List.mem_cons.mp hx with rfl | hx2
        · apply hacc
          split
          · rename_i hany
            rw [List.any_eq_true] at hany
            obtain ⟨y, hy, hye⟩ := hany
            rw [decide_eq_true_eq] at hye
            rw [← hye]
            exact hy
          · exact List.mem_append_right _ (List.mem_singleton.mpr rfl)
        · exact hsubr x hx2

theorem setMem_of_mem (ids : List Val) (p : Val) (sp : String)
    (hstr : p = .str sp) (hp : p ∈ ids) : setMem ids p = .ok true := by
  unfold setMem
  subst hstr
  simp only [Val.hashable, if_true]
  rw [show ids.any (fun x => decide (x = Val.str sp)) = true from
    List.any_eq_true.mpr ⟨.str sp, hp, by simp⟩]

theorem checkLinksLoop_ok :
    ∀ (ls : List Val) (ids : List Val) (i : Nat),
      (∀ l ∈ ls, ∃ p t, l = mkLink p t ∧ p ∈ ids ∧ t ∈ ids) →
      (∀ x ∈ ids, ∃ s, x = .str s) →
      checkLinksLoop ids i ls = .ok () := by
  intro ls
  induction ls with
  | nil => intro ids i _ _; rfl
  | cons l rest ih =>
    intro ids i hls hstr
    obtain ⟨p, t, rfl, hp, ht⟩ := hls l (List.mem_cons_self l rest)
    obtain ⟨sp, hsp⟩ := hstr p hp
    obtain ⟨st, hst⟩ := hstr t ht
    unfold checkLinksLoop
    rw [show Val.mem "source" (mkLink p t) = .ok true from rfl]
    simp only [except_bind_ok, Bool.not_true, Bool.false_eq_true, if_false]
    rw [show Val.mem "target" (mkLink p t) = .ok true from rfl]
    simp only [except_bind_ok, Bool.not_true, Bool.false_eq_true, if_false]
    rw [show (mkLink p t).item "source" = .ok p from rfl]
    simp only [except_bind_ok]
    rw [setMem_of_mem ids p sp hsp hp]
    simp only [except_bind_ok, Bool.not_true, Bool.false_eq_true, if_false]
    rw [show (mkLink p t).item "target" = .ok t from rfl]
    simp only [except_bind_ok]
    rw [setMem_of_mem ids t st hst ht]
    simp only [except_bind_ok, Bool.not_true, Bool.false_eq_true, if_false]
    exact ih ids (i + 1) (fun l2 hl2 => hls l2 (List.mem_cons_of_mem _ hl2)) hstr

theorem checkParentList_ok :
    ∀ (ps ids : List Val) (i : Nat) (node : Val),
      (∀ p ∈ ps, p ∈ ids) →
      (∀ x ∈ ids, ∃ s, x = .str s) →
      checkParentList ids i node ps = .ok () := by
  intro ps
  induction ps with
  | nil => intro ids i node _ _; rfl
  | cons p rest ih =>
    intro ids i node hps hstr
    have hp := hps p (List.mem_cons_self p rest)
    obtain ⟨sp, hsp⟩ := hstr p hp
    unfold checkParentList
    rw [setMem_of_mem ids p sp hsp hp]
    simp only [except_bind_ok, Bool.not_true, Bool.false_eq_true, if_false]
    exact ih ids i node (fun q hq => hps q (List.mem_cons_of_mem p hq)) hstr

theorem checkParentsLoop_ok (allIds : List Val) :
    ∀ (ns ids : List Val) (i : Nat),
      (∀ n ∈ ns, parentsKnown allIds n = true) →
      (∀ x ∈ allIds, x ∈ ids) →
      (∀ x ∈ ids, ∃ s, x = .str s) →
      checkParentsLoop ids i ns = .ok () := by
  intro ns
  induction ns with
  | nil => intro ids i _ _ _; rfl
  | cons n rest ih =>
    intro ids i hpar hsub hstr
    have hn := hpar n (List.mem_cons_self n rest)
    unfold parentsKnown at hn
    cases hps : effParents n with
    | error e => rw [hps] at hn; simp at hn
    | ok ps =>
      rw [hps] at hn
      have hn2 : ps.all (memIds allIds) = true := hn
      rw [List.all_eq_true] at hn2
      unfold checkParentsLoop
      rw [hps]
      simp only [except_bind_ok]
      rw [checkParentList_ok ps ids i n
        (fun p hp => hsub p ((memIds_eq_mem _ _).mp (hn2 p hp))) hstr]
      simp only [except_bind_ok]
      exact ih ids (i + 1) (fun m hm => hpar m (List.mem_cons_of_mem n hm)) hsub hstr

/-- Validation accepts well-shaped nodes with generated links — with no
condition whatsoever on the distinctness of node ids. -/
theorem validateData_accepts (nodes links : List Val)
    (hplain : ∀ n ∈ nodes, plainNode n = true)
    (hlinks : ∀ l ∈ links, ∃ p t, l = mkLink p t ∧ p ∈ idsOf nodes ∧ t ∈ idsOf nodes)
    (hpar : ∀ n ∈ nodes, parentsKnown (idsOf nodes) n = true) :
    validateData (.list nodes) (.list links) = .ok () := by
  obtain ⟨ids, hcn, hacc, hsub⟩ := checkNodesLoop_ok nodes 0 [] hplain
  have hstr : ∀ x ∈ ids, ∃ s, x = .str s := by
    intro x hx
    cases checkNodesLoop_subset nodes 0 [] ids hcn x hx with
    | inl h0 => simp at h0
    | inr h0 => exact idsOf_str nodes hplain x h0
  simp only [validateData]
  rw [hcn]
  simp only [except_bind_ok]
  rw [checkLinksLoop_ok links ids 0
    (fun l hl => by
      obtain ⟨p, t, he, hp, ht⟩ := hlinks l hl
      exact ⟨p, t, he, hsub p hp, hsub t ht⟩) hstr]
  simp only [except_bind_ok]
  exact checkParentsLoop_ok (idsOf nodes) nodes ids 0 hpar hsub hstr

theorem plain_shape (n : Val) (h : plainNode n = true) : timespanShaped n = true := by
  cases n with
  | dict es => exact (plain_parts es h).2.2.1
  | none => simp [plainNode] at h
  | bool b => simp [plainNode] at h
  | int m => simp [plainNode] at h
  | float q => simp [plainNode] at h
  | str s => simp [plainNode] at h
  | list xs => simp [plainNode] at h

theorem plain_ints (n : Val) (h : plainNode n = true) :
    allInts (nodePoolContrib n) = true := by
  cases n with
  | dict es => exact (plain_parts es h).2.2.2
  | none => simp [plainNode] at h
  | bool b => simp [plainNode] at h
  | int m => simp [plainNode] at h
  | float q => simp [plainNode] at h
  | str s => simp [plainNode] at h
  | list xs => simp [plainNode] at h

/-- Did `load_dict` succeed? -/
def loadOk (kg : KG) (raw : Val) : Bool :=
  match processRawData kg raw with
  | .ok _ => true
  | .error _ => false

/-- C10: validation performs no uniqueness check on node ids — for every node
sequence of well-shaped nodes (id a string, label present, timespans
well-formed, all parent references resolvable), the whole load succeeds, with
*no condition whatsoever on the distinctness of the ids*; in particular two
distinct nodes with the same id are silently accepted into the node-id set
(see the witness). -/
theorem duplicate_ids_accepted (nodes : List Val)
    (hplain : ∀ n ∈ nodes, plainNode n = true)
    (hpar : ∀ n ∈ nodes, parentsKnown (idsOf nodes) n = true) :
    loadOk (initKG []) (.dict [("nodes", .list nodes)]) = true := by
  have hall : ∀ n ∈ nodes, ∃ v, n.item "id" = .ok v := by
    intro n hn
    obtain ⟨s, hs⟩ := plain_item_id n (hplain n hn)
    exact ⟨.str s, hs⟩
  obtain ⟨ls, hgen, hlsShape⟩ := genLinksLoop_ok nodes hall nodes (fun n hn => hn) hpar []
  have h1 : stepMetadata (initKG []) (.dict [("nodes", .list nodes)]) = .ok (initKG []) := rfl
  have h2 : stepLayers (initKG []) (.dict [("nodes", .list nodes)]) = .ok (initKG []) := rfl
  have h3 : stepData (initKG []) (.dict [("nodes", .list nodes)]) =
      .ok ⟨mergeDefaultConfig [], .list nodes, .list [], false⟩ := rfl
  have h4 : stepGenLinks ⟨mergeDefaultConfig [], .list nodes, .list [], false⟩ =
      .ok ⟨mergeDefaultConfig [], .list nodes, .list ls, false⟩ := by
    unfold stepGenLinks
    have hg : generateLinksFromParents ⟨mergeDefaultConfig [], .list nodes, .list [], false⟩ =
        .ok ⟨mergeDefaultConfig [], .list nodes, .list ls, false⟩ := by
      unfold generateLinksFromParents
      simp only [Val.iter, except_bind_ok]
      rw [hgen]
      simp only [except_bind_ok]
      rfl
    rw [hg]
    rfl
  have hshape : ∀ n ∈ nodes, timespanShaped n = true :=
    fun n hn => plain_shape n (hplain n hn)
  have hints : allInts (timePool nodes) = true :=
    allInts_timePool nodes (fun n hn => plain_ints n (hplain n hn))
  have hac := autoCalculateTimeline_spec
    ⟨mergeDefaultConfig [], .list nodes, .list ls, false⟩ nodes
    [("enabled", .bool true), ("start", Val.none), ("end", Val.none)]
    Val.none Val.none rfl rfl rfl rfl hshape hints
  have h5 : ∃ cfg2, stepTimeline ⟨mergeDefaultConfig [], .list nodes, .list ls, false⟩ =
      .ok ⟨cfg2, .list nodes, .list ls, false⟩ := by
    unfold stepTimeline
    rw [show cfgItem ⟨mergeDefaultConfig [], .list nodes, .list ls, false⟩ "timeline" =
      .ok (.dict [("enabled", .bool true), ("start", Val.none), ("end", Val.none)]) from rfl]
    simp only [withKG_ok, except_bind_ok]
    rw [show Val.item
      (.dict [("enabled", .bool true), ("start", Val.none), ("end", Val.none)]) "start" =
      .ok Val.none from rfl]
    simp only [withKG_ok, except_bind_ok, if_pos rfl]
    rw [hac]
    split
    · split
      · exact ⟨mergeDefaultConfig [], rfl⟩
      · exact ⟨_, rfl⟩
    · next h => exact absurd trivial h
  obtain ⟨cfg2, h5⟩ := h5
  have hval : validateData (Val.list nodes) (Val.list ls) = .ok () :=
    validateData_accepts nodes ls hplain hlsShape hpar
  have h6 : stepValidate ⟨cfg2, .list nodes, .list ls, false⟩ =
      .ok ⟨cfg2, .list nodes, .list ls, false⟩ := by
    unfold stepValidate
    rw [show (⟨cfg2, .list nodes, .list ls, false⟩ : KG).dataNodes = Val.list nodes from rfl,
      show (⟨cfg2, .list nodes, .list ls, false⟩ : KG).dataLinks = Val.list ls from rfl,
      hval]
    rfl
  unfold loadOk processRawData
  rw [h1]
  simp only [except_bind_ok]
  rw [h2]
  simp only [except_bind_ok]
  rw [h3]
  simp only [except_bind_ok]
  rw [h4]
  simp only [except_bind_ok]
  rw [h5]
  simp only [except_bind_ok]
  rw [h6]
  simp only [except_bind_ok]
  rfl

/-- Two distinct nodes with the same id `d`. -/
def dupNodesW : List Val :=
  [.dict [("id", .str "d"), ("label", .str "A")],
   .dict [("id", .str "d"), ("label", .str "B"), ("parent_node", .str "d")]]

theorem duplicate_ids_accepted_witness :
    loadOk (initKG []) (.dict [("nodes", .list dupNodesW)]) = true :=
  duplicate_ids_accepted dupNodesW (by decide) (by decide)

/-- A state whose timeline is unset and whose single node has
`timespan = {start: 0, end: 5}`. -/
def kgZeroStart : KG :=
  { config := [("timeline", .dict [("start", Val.none), ("end", Val.none)])]
    dataNodes := .list [.dict
      [("id", .str "a"), ("label", .str "A"),
       ("timespan", .dict [("start", .int 0), ("end", .int 5)])]]
    dataLinks := .list []
    is_loaded := false }

/-- C5 (counterexample): with one node having `timespan = {start: 0, end: 5}`
and both timeline bounds unset, auto-calculation sets `start = 5`, not
`start = 0`: the defined value `0` is falsy and is *not* pooled, so the pool
is `[5]` — the claim that every defined `timespan.start`/`timespan.end` value
is pooled is false. -/
theorem autoCalculateTimeline_skips_zero :
    autoCalculateTimeline kgZeroStart =
      .ok { kgZeroStart with
              config := [("timeline", .dict [("start", .int 5), ("end", .int 5)])] } :=
  rfl

end KGCore
